import Mathlib

/-!
Verification development for the view-bunker coal-blending dashboard.

The repository has two computational cores:

* a server-side metric computation (`calcAFT`, `computeBlendMetrics` in
  `server.js`) that turns blend rows, per-mill flows and a generation value
  into weighted blend chemistry (GCV, ash-fusion temperature, heat rate), and
* a client-side countdown engine (`parseTimerToSeconds`,
  `buildSequencesFromBlend`, `NextBlendBinder`, `getBottomGcvForBunker`,
  `computeDerivedMetrics` in `public/dashboard.js`) that simulates which coal
  layer is currently draining from each bunker and re-derives summary metrics.

JavaScript numbers are modelled as rationals (`ℚ`); the code under study only
adds, multiplies, divides and compares, so exact arithmetic captures it.
JavaScript `null`/`undefined` and non-numeric values are modelled with
`Option`.  JavaScript strings that the timer parser inspects are modelled as
`List Char`.  Each definition mirrors the control flow of the corresponding
source function; deviations forced by the value model (for example collapsing
`undefined` and `null` when the code treats them identically) are noted at the
definition.
-/

namespace ViewBunker

/-! ### JavaScript string and number primitives

These model the JavaScript built-ins used by `parseTimerToSeconds`:
`String.prototype.trim`, `String.prototype.split(':')`, the regular
expressions `/^0+/`, `/(\d+)/g` and `/[^0-9\.\-]/g`, the decimal fragment of
the `Number` conversion (hexadecimal, exponent and `Infinity` forms never
arise from the dashboard inputs and are out of scope), `Math.floor`,
`Math.max` and the `| 0` coercion to a 32-bit integer. -/

/-- Whitespace test for the model of `String.prototype.trim`. -/
def isJsSpace (c : Char) : Bool :=
  c = ' ' || c = '\t' || c = '\n' || c = '\r'

/-- Model of `String.prototype.trim`: drop whitespace from both ends. -/
def jsTrim (l : List Char) : List Char :=
  ((l.dropWhile isJsSpace).reverse.dropWhile isJsSpace).reverse

/-- Numeric value of a list of decimal digits, most significant first.
Used to model the `Number` conversion on all-digit strings. -/
def natOfDigits (l : List Char) : ℕ :=
  l.foldl (fun a c => 10 * a + (c.toNat - 48)) 0

/-- Unsigned decimal literal: `digits`, `digits.digits`, `digits.` or
`.digits`, with at least one digit.  Everything else is NaN (`none`). -/
def jsDec (l : List Char) : Option ℚ :=
  let ds := l.takeWhile Char.isDigit
  let rest := l.dropWhile Char.isDigit
  match rest with
  | [] => if ds = [] then none else some (natOfDigits ds)
  | '.' :: fs =>
    if fs.all Char.isDigit && (!ds.isEmpty || !fs.isEmpty) then
      some ((natOfDigits ds : ℚ) + (natOfDigits fs : ℚ) / 10 ^ fs.length)
    else none
  | _ => none

/-- Model of the JavaScript `Number(string)` conversion, restricted to the
decimal fragment: trimmed input, empty means `0`, optional sign, then an
unsigned decimal literal.  `none` is NaN. -/
def jsNumber (l : List Char) : Option ℚ :=
  let t := jsTrim l
  if t = [] then some 0
  else
    match t with
    | '+' :: rest => jsDec rest
    | '-' :: rest => (jsDec rest).map Neg.neg
    | _ => jsDec t

/-- Model of `String.prototype.split` with a one-character separator. -/
def jsSplit (sep : Char) : List Char → List (List Char)
  | [] => [[]]
  | c :: rest =>
    if c = sep then [] :: jsSplit sep rest
    else
      match jsSplit sep rest with
      | [] => [[c]]
      | h :: t => (c :: h) :: t

/-- Helper for `digitRuns`: `cur` is the reversed digit run in progress. -/
def digitRunsAux : List Char → List Char → List (List Char)
  | [], cur => if cur = [] then [] else [cur.reverse]
  | c :: rest, cur =>
    if c.isDigit then digitRunsAux rest (c :: cur)
    else if cur = [] then digitRunsAux rest []
    else cur.reverse :: digitRunsAux rest []

/-- Model of `s.match(/(\d+)/g)`: the maximal runs of decimal digits, in
order; the empty list plays the role of a `null` match result. -/
def digitRuns (l : List Char) : List (List Char) :=
  digitRunsAux l []

/-- Truncation toward zero, as the JavaScript `| 0` coercion performs before
reducing modulo `2 ^ 32`. -/
def jsTrunc (q : ℚ) : ℤ :=
  if 0 ≤ q then ⌊q⌋ else ⌈q⌉

/-- Model of the JavaScript `| 0` coercion: truncate toward zero, then wrap
into the signed 32-bit range. -/
def toInt32 (q : ℚ) : ℤ :=
  (jsTrunc q + 2 ^ 31) % 2 ^ 32 - 2 ^ 31

/-! ### parseTimerToSeconds (`public/dashboard.js`, lines 251-274) -/

/-- Values that the dashboard passes to `parseTimerToSeconds`: `null` or
`undefined`; a finite number; a Mongo extended-JSON wrapper object carrying
`$numberInt` or `$numberDouble` (their payloads are modelled by the numeric
value they denote); or a string.  Non-finite numbers do not arise in the
dashboard data and are not modelled. -/
inductive TimerVal where
  | vnull : TimerVal
  | num (q : ℚ) : TimerVal
  | mobj (numberInt : Option ℚ) (numberDouble : Option ℚ) : TimerVal
  | str (s : List Char) : TimerVal
deriving DecidableEq

/-- Character list for the JavaScript string `[object Object]`, which is what
`String` produces on a plain object with neither wrapper field truthy. -/
def objectString : List Char :=
  ['[', 'o', 'b', 'j', 'e', 'c', 't', ' ', 'O', 'b', 'j', 'e', 'c', 't', ']']

/-- Colon branch of `parseTimerToSeconds`: split on `:`, strip leading zeros
from each part (empty becomes `0`), convert with `Number`; three numeric parts
mean `H:M:S`, two mean `M:S`; otherwise fall back to the concatenation of all
digit runs, or `null` when there is none. -/
def pnumPart (x : List Char) : Option ℚ :=
  let y := x.dropWhile (fun c => c = '0')
  if y = [] then some 0 else jsNumber y

/-- Evaluation of the colon branch on the trimmed string. -/
def parseColon (t : List Char) : Option ℚ :=
  match (jsSplit ':' t).map pnumPart with
  | [some p0, some p1, some p2] => some (3600 * p0 + 60 * p1 + p2)
  | [some p0, some p1] => some (60 * p0 + p1)
  | _ =>
    match (digitRuns t).flatten with
    | [] => none
    | ds => some (max 0 (natOfDigits ds : ℚ))

/-- String branch of `parseTimerToSeconds`: trim; empty is `null`; a string
containing `:` goes to the colon branch; otherwise all characters except
digits, `.` and `-` are removed and the remainder converted with `Number`,
yielding `Math.max(0, Math.floor n)` when finite and `null` otherwise. -/
def parseJsString (s : List Char) : Option ℚ :=
  let t := jsTrim s
  if t = [] then none
  else if ':' ∈ t then parseColon t
  else
    match jsNumber (t.filter (fun c => c.isDigit || c = '.' || c = '-')) with
    | some n => some ((max 0 ⌊n⌋ : ℤ) : ℚ)
    | none => none

/-- Continuation of the wrapper-object case after a falsy `$numberInt`:
a truthy `$numberDouble` is floored and clamped, anything else falls through
to `String(timerVal)`, which is `[object Object]`. -/
def parseMobjRest (nd : Option ℚ) : Option ℚ :=
  match nd with
  | some d => if d ≠ 0 then some ((max 0 ⌊d⌋ : ℤ) : ℚ) else parseJsString objectString
  | none => parseJsString objectString

/-- Model of `parseTimerToSeconds` (`dashboard.js` 251-274).  `none` stands
for the JavaScript `null` result. -/
def parseTimerToSeconds : TimerVal → Option ℚ
  | .vnull => none
  | .num q => some ((max 0 ⌊q⌋ : ℤ) : ℚ)
  | .mobj ni nd =>
    match ni with
    | some i => if i ≠ 0 then some ((max 0 (toInt32 i) : ℤ) : ℚ) else parseMobjRest nd
    | none => parseMobjRest nd
  | .str s => parseJsString s

example : parseTimerToSeconds (.str ('1' :: ':' :: '0' :: '2' :: ':' :: ['3'])) = some 3723 := by
  simp +decide [parseTimerToSeconds, parseJsString, parseColon, jsTrim, jsSplit, pnumPart,
    jsNumber, jsDec, natOfDigits, isJsSpace]
  norm_num

example : parseTimerToSeconds (.str ('0' :: ':' :: '0' :: ':' :: '-' :: ['5'])) = some (-5) := by
  simp +decide [parseTimerToSeconds, parseJsString, parseColon, jsTrim, jsSplit, pnumPart,
    jsNumber, jsDec, natOfDigits, isJsSpace]

example : parseTimerToSeconds (.num (-7/2)) = some 0 := by
  simp +decide [parseTimerToSeconds]
  norm_num [Int.floor_eq_iff]

example : parseTimerToSeconds (.str (' ' :: '4' :: '2' :: 'x' :: [])) = some 42 := by
  simp +decide [parseTimerToSeconds, parseJsString, jsTrim, jsNumber, jsDec, natOfDigits,
    isJsSpace]

/-! ### Client-side data model (`public/dashboard.js`)

The blend document the dashboard fetches from `/api/blend/latest`, as the
client code reads it.  `Option` marks fields and array entries that may be
absent, `null` or non-numeric.  A field of type `Option (Option ℚ)` separates
"absent or null" (outer `none`) from "present but not a number", i.e. a value
on which `safeNum` yields `null` (inner `none`). -/

/-- Layer record inside `blend.bunkers[b].layers`, as the client reads it.
The `percent` field is `none` for `undefined` or `null` (the code then falls
back to `percentages`); `gcv` is the `safeNum` view of the stored gcv, so
`none` covers absent, null and non-numeric values; `coal` is the stored name
with the empty string standing for every falsy value. -/
structure LayerC where
  timer : TimerVal
  percent : Option ℚ
  percentages : Option (List ℚ)
  gcv : Option ℚ
  coal : String
deriving DecidableEq

/-- Bunker record inside `blend.bunkers`: its stored layers (entries may be
`null`) and an optional `flow` field read by `getBunkerFlow`. -/
structure BunkerC where
  layers : List (Option LayerC)
  flow : Option (Option ℚ)
deriving DecidableEq

/-- Value of a `coal` field on a row: absent or falsy, a plain string, or an
object mapping a mill index (as a decimal string) to a coal reference. -/
inductive CoalRef where
  | cnull : CoalRef
  | cstr (s : String) : CoalRef
  | cmap (entries : List (String × String)) : CoalRef
deriving DecidableEq

/-- Property access on the object form of a `coal` field. -/
def coalMapGet (entries : List (String × String)) (key : String) : Option String :=
  (entries.find? (fun e => e.1 = key)).map (fun e => e.2)

/-- Row record inside `blend.rows`, as the legacy fallback of
`getBottomGcvForBunker` reads it.  `percentages` entries are the `safeNum`
view of each stored entry; `gcv` distinguishes absent or null (outer `none`)
from present but non-numeric (inner `none`). -/
structure RowC where
  coal : CoalRef
  percentages : Option (List (Option ℚ))
  percent : Option ℚ
  gcv : Option (Option ℚ)
deriving DecidableEq

/-- Blend document as the dashboard reads it.  `flows` entries of the form
`some none` are present but not numeric; indices past the end of the list are
`undefined`. -/
structure BlendC where
  bunkers : Option (List BunkerC)
  flows : Option (List (Option ℚ))
  rows : Option (List (Option RowC))
  totalFlow : Option ℚ
  generation : Option ℚ
  bunkerCapacity : Option ℚ
deriving DecidableEq

/-- Coal document as the dashboard reads it from `/api/coal`.  The string
fields use the empty string for every falsy value; `idStr` is the common view
of `_id` and `id` that the lookups compare with `String(...)`. -/
structure CoalDocC where
  coal : String
  name : String
  idStr : String
  gcv : Option (Option ℚ)
deriving DecidableEq

/-- Bunker count used by `buildSequencesFromBlend` and
`computeDerivedMetrics`: the length of `blend.bunkers` when it is an array,
and 8 otherwise. -/
def bunkerCount (blend : BlendC) : ℕ :=
  match blend.bunkers with
  | some bs => bs.length
  | none => 8

/-- Stored layers of bunker `b`, with `[]` when the bunker is absent. -/
def layersAt (blend : BlendC) (b : ℕ) : List (Option LayerC) :=
  match blend.bunkers.bind (fun bs => bs.get? b) with
  | some bk => bk.layers
  | none => []

/-- Model of `getBunkerFlow` (`dashboard.js` 122-135): prefer a numeric entry
of `blend.flows`, fall back to a numeric `blend.bunkers[idx].flow`, and
return `null` otherwise. -/
def getBunkerFlow (blend : BlendC) (idx : ℕ) : Option ℚ :=
  let fallback :=
    match blend.bunkers.bind (fun bs => bs.get? idx) with
    | some bk =>
      match bk.flow with
      | some (some v) => some v
      | _ => none
    | none => none
  match blend.flows with
  | some fl =>
    match fl.get? idx with
    | some (some v) => some v
    | _ => fallback
  | none => fallback

/-! ### buildSequencesFromBlend (`dashboard.js` 276-313) -/

/-- Percent resolution used by `buildSequencesFromBlend`: the `percent` field
when defined, else the first entry of `percentages`, else `0` (the `safeNum`
of an empty array is `0`). -/
def layerPct (L : LayerC) : ℚ :=
  match L.percent with
  | some p => p
  | none =>
    match L.percentages with
    | some (h :: _) => h
    | some [] => 0
    | none => 0

/-- Sequence entry built from one stored layer, given the blend capacity and
the bunker flow: a parsed timer is floored and clamped to zero; otherwise a
non-zero percent together with a capacity and a positive flow yields
`Math.max(0, Math.ceil((pct / 100) * capacity / flow * 3600))`; everything
else, including a `null` layer, yields `null`. -/
def seqEntryOfLayer (capacity : Option ℚ) (fVal : Option ℚ) : Option LayerC → Option ℕ
  | none => none
  | some L =>
    match parseTimerToSeconds L.timer with
    | some t => some (max 0 ⌊t⌋).toNat
    | none =>
      let pct := layerPct L
      if pct = 0 then none
      else
        match capacity, fVal with
        | some cap, some f =>
          if 0 < f then some (max 0 ⌈pct / 100 * cap / f * 3600⌉).toNat else none
        | some _, none => none
        | none, _ => none

/-- Model of `buildSequencesFromBlend` (`dashboard.js` 276-313): one sequence
per bunker, one entry per stored layer, iterating layers bottom to top (last
stored layer first). -/
def buildSequencesFromBlend (blend : BlendC) : List (List (Option ℕ)) :=
  (List.range (bunkerCount blend)).map (fun b =>
    ((layersAt blend b).reverse).map (seqEntryOfLayer blend.bunkerCapacity (getBunkerFlow blend b)))

/-! ### NextBlendBinder state machine (`dashboard.js` 315-434)

The binder keeps three parallel arrays of one cell per bunker: the fixed
timer `sequences`, the `activeIdx` pointer into the sequence and the
`remaining` seconds of the active entry.  The per-bunker cell is modelled as a
pair `Option ℕ × Option ℕ` of pointer and remaining time; ticking is the
`zipWith` of the per-bunker step over sequences and cells. -/

/-- First index `i ≥ start` whose sequence entry is non-null, as the scan
loops in `_resetFromSequences` and `_tick` compute it. -/
def findFrom : List (Option ℕ) → ℕ → Option ℕ
  | [], _ => none
  | e :: rest, 0 =>
    match e with
    | some _ => some 0
    | none => (findFrom rest 0).map (fun i => i + 1)
  | _ :: rest, s + 1 => (findFrom rest s).map (fun i => i + 1)

/-- Model of the per-bunker part of `_resetFromSequences` (`dashboard.js`
329-344): point at the first non-null entry and load its value, or clear both
cells. -/
def resetBunker (seq : List (Option ℕ)) : Option ℕ × Option ℕ :=
  match findFrom seq 0 with
  | some j => (some j, seq.getD j none)
  | none => (none, none)

/-- Model of the per-bunker part of `_tick` (`dashboard.js` 368-404): null
remaining time is left alone; positive remaining time is decremented; at zero
the pointer advances to the next non-null entry and loads it, or both cells
are cleared. -/
def tickBunker (seq : List (Option ℕ)) : Option ℕ × Option ℕ → Option ℕ × Option ℕ
  | (ai, none) => (ai, none)
  | (ai, some r) =>
    if 0 < r then (ai, some (r - 1))
    else
      match findFrom seq (match ai with | none => 0 | some i => i + 1) with
      | some j => (some j, seq.getD j none)
      | none => (none, none)

/-- One tick of the whole binder: the per-bunker step on every cell. -/
def tickAll (seqs : List (List (Option ℕ))) (st : List (Option ℕ × Option ℕ)) :
    List (Option ℕ × Option ℕ) :=
  List.zipWith tickBunker seqs st

/-- Binder state right after the constructor or `updateBlend`, both of which
rebuild the sequences and call `_resetFromSequences`. -/
def initState (seqs : List (List (Option ℕ))) : List (Option ℕ × Option ℕ) :=
  seqs.map resetBunker

/-- Binder state after `n` ticks from a fresh reset.  Because `updateBlend`
rebuilds the sequences and resets, every reachable binder state has this form
for some blend and `n`. -/
def reach (seqs : List (List (Option ℕ))) (n : ℕ) : List (Option ℕ × Option ℕ) :=
  (tickAll seqs)^[n] (initState seqs)

/-- Client binder object: the blend it was built from, its sequences and the
two state arrays. -/
structure Binder where
  blend : Option BlendC
  sequences : List (List (Option ℕ))
  activeIdx : List (Option ℕ)
  remaining : List (Option ℕ)
deriving DecidableEq

/-- Binder reachable after `n` ticks on a given blend. -/
def mkBinder (blend : BlendC) (n : ℕ) : Binder :=
  { blend := some blend
    sequences := buildSequencesFromBlend blend
    activeIdx := (reach (buildSequencesFromBlend blend) n).map Prod.fst
    remaining := (reach (buildSequencesFromBlend blend) n).map Prod.snd }

/-- Model of `NextBlendBinder.getActiveLayer` (`dashboard.js` 419-433): map
the active sequence index `i` of bunker `b` back to the stored layer at
original index `layers.length - 1 - i`; any missing structure, a cleared
pointer or an out-of-range index gives `null` (the code catches the
exception thrown when `bunkers[b]` is absent). -/
def getActiveLayer (bd : Binder) (bidx : ℕ) : Option LayerC :=
  match bd.blend with
  | none => none
  | some blend =>
    match blend.bunkers with
    | none => none
    | some bs =>
      match bs.get? bidx with
      | none => none
      | some bk =>
        match bd.activeIdx.getD bidx none with
        | none => none
        | some i =>
          let len := bk.layers.length
          let orig : ℤ := (len : ℤ) - 1 - (i : ℤ)
          if 0 ≤ orig ∧ orig < (len : ℤ) then bk.layers.getD orig.toNat none else none

/-! ### getBottomGcvForBunker (`dashboard.js` 146-247)

The function tries three strategies in order: the binder active layer, the
stored bunker layers scanned bottom to top, and the legacy row scan.  Each
helper returns `some r` when the corresponding block of the source executes a
`return r` (with `r` itself optional, since the code can return the `null`
result of `safeNum`), and `none` when control falls through to the next
strategy. -/

/-- Predicate of the `coalDB.find(...)` lookups: match on the lowercased
trimmed `coal` or `name`, or exactly on the id. -/
def coalKeyMatches (keyLower ref : String) (c : CoalDocC) : Bool :=
  (c.coal != "" && c.coal.trim.toLower == keyLower)
    || (c.name != "" && c.name.trim.toLower == keyLower)
    || (c.idStr != "" && c.idStr == ref)

/-- First coal document matching a reference, as the inline `find` calls
compute it. -/
def coalLookup (coalDB : List CoalDocC) (ref : String) : Option CoalDocC :=
  coalDB.find? (coalKeyMatches (ref.trim.toLower) ref)

/-- Shared tail of every lookup: when a document is found and carries a
defined non-null `gcv`, the code returns `safeNum(found.gcv)` (which may
itself be `null`); otherwise it falls through. -/
def lookupGcvByCoal (coalDB : List CoalDocC) (ref : String) : Option (Option ℚ) :=
  match coalLookup coalDB ref with
  | some c =>
    match c.gcv with
    | some g => some g
    | none => none
  | none => none

/-- Strategy 0 (`dashboard.js` 149-167): consult the binder active layer. -/
def gcvFromBinder (binder : Option Binder) (coalDB : List CoalDocC) (b : ℕ) :
    Option (Option ℚ) :=
  match binder with
  | none => none
  | some bd =>
    match getActiveLayer bd b with
    | none => none
    | some L =>
      match L.gcv with
      | some g => some (some g)
      | none => if L.coal ≠ "" then lookupGcvByCoal coalDB L.coal else none

/-- Strategy 1 scan (`dashboard.js` 170-195): walk the reversed layer list
(bottom to top), skip null layers and layers without positive percent, and
return the first resolvable gcv. -/
def gcvScanLayers (coalDB : List CoalDocC) : List (Option LayerC) → Option (Option ℚ)
  | [] => none
  | none :: rest => gcvScanLayers coalDB rest
  | some L :: rest =>
    if 0 < layerPct L then
      match L.gcv with
      | some g => some (some g)
      | none =>
        if L.coal ≠ "" then
          match lookupGcvByCoal coalDB L.coal with
          | some r => some r
          | none => gcvScanLayers coalDB rest
        else gcvScanLayers coalDB rest
    else gcvScanLayers coalDB rest

/-- Strategy 1 entry point: requires the bunker and its layer array. -/
def gcvFromLayers (blend : BlendC) (coalDB : List CoalDocC) (b : ℕ) : Option (Option ℚ) :=
  match blend.bunkers.bind (fun bs => bs.get? b) with
  | some bk => gcvScanLayers coalDB bk.layers.reverse
  | none => none

/-- Percent resolution of the legacy row scan: a `percentages` entry when the
array reaches index `b`, else the scalar `percent` field. -/
def rowPct (row : RowC) (b : ℕ) : Option ℚ :=
  match row.percentages with
  | some l => if b < l.length then l.getD b none else row.percent
  | none => row.percent

/-- Strategy 2 scan (`dashboard.js` 198-242): walk the reversed row list,
skip rows whose percent for this bunker is null or zero, and resolve a gcv
from the row itself, from the per-mill coal map, or from the plain coal
string. -/
def gcvScanRows (coalDB : List CoalDocC) (b : ℕ) : List (Option RowC) → Option (Option ℚ)
  | [] => none
  | none :: rest => gcvScanRows coalDB b rest
  | some row :: rest =>
    match rowPct row b with
    | none => gcvScanRows coalDB b rest
    | some p =>
      if p = 0 then gcvScanRows coalDB b rest
      else
        match row.gcv with
        | some (some g) => some (some g)
        | _ =>
          match row.coal with
          | .cmap es =>
            match coalMapGet es (toString b) with
            | some ref =>
              if ref ≠ "" then
                match lookupGcvByCoal coalDB ref with
                | some r => some r
                | none => gcvScanRows coalDB b rest
              else gcvScanRows coalDB b rest
            | none => gcvScanRows coalDB b rest
          | .cstr st =>
            if st ≠ "" then
              match lookupGcvByCoal coalDB st with
              | some r => some r
              | none => gcvScanRows coalDB b rest
            else gcvScanRows coalDB b rest
          | .cnull => gcvScanRows coalDB b rest

/-- Strategy 2 entry point: requires the row array. -/
def gcvFromRows (blend : BlendC) (coalDB : List CoalDocC) (b : ℕ) : Option (Option ℚ) :=
  match blend.rows with
  | some rows => gcvScanRows coalDB b rows.reverse
  | none => none

/-- Model of `getBottomGcvForBunker` (`dashboard.js` 146-247): the three
strategies in order, `null` when all fall through. -/
def getBottomGcvForBunker (binder : Option Binder) (blend : BlendC)
    (coalDB : List CoalDocC) (b : ℕ) : Option ℚ :=
  match gcvFromBinder binder coalDB b with
  | some r => r
  | none =>
    match gcvFromLayers blend coalDB b with
    | some r => r
    | none =>
      match gcvFromRows blend coalDB b with
      | some r => r
      | none => none

/-! ### computeDerivedMetrics (`dashboard.js` 444-484) -/

/-- Result record of `computeDerivedMetrics`. -/
structure Derived where
  avgGCV : Option ℚ
  heatRate : Option ℚ
  totalFlow : Option ℚ
deriving DecidableEq

/-- Accumulation loop of `computeDerivedMetrics`: over every bunker index,
when both the flow and the bottom gcv resolve, add `gcv * flow` to the
numerator and `flow` to the contributed-flow sum. -/
def derivedAccum (binder : Option Binder) (blend : BlendC) (coalDB : List CoalDocC) :
    ℚ × ℚ :=
  (List.range (bunkerCount blend)).foldl
    (fun acc b =>
      match getBunkerFlow blend b, getBottomGcvForBunker binder blend coalDB b with
      | some f, some g => (acc.1 + g * f, acc.2 + f)
      | _, _ => acc)
    (0, 0)

/-- Model of `computeDerivedMetrics` (`dashboard.js` 444-484). -/
def computeDerivedMetrics (binder : Option Binder) (blend? : Option BlendC)
    (coalDB : List CoalDocC) : Derived :=
  match blend? with
  | none => ⟨none, none, none⟩
  | some blend =>
    let acc := derivedAccum binder blend coalDB
    let totalFlow : Option ℚ :=
      match blend.totalFlow with
      | some t => some t
      | none => if 0 < acc.2 then some acc.2 else none
    let avgGCV : Option ℚ :=
      match totalFlow with
      | some t => if 0 < t then some (acc.1 / t) else none
      | none => none
    let heatRate : Option ℚ :=
      match avgGCV, totalFlow, blend.generation with
      | some a, some t, some g => if 0 < g then some (a * t / g) else none
      | _, _, _ => none
    ⟨avgGCV, heatRate, totalFlow⟩

/-! ### Server-side blend metrics (`server.js`)

The claims cover `calcAFT` and the GCV / AFT / heat-rate part of
`computeBlendMetrics` (lines 183-356).  The cost-rate and stored-bunker
construction of the same function are outside every claim and are not
modelled.  Coal documents enter through the lookup maps `byId` and
`byNameLower`, where a later document with the same key overwrites an earlier
one. -/

/-- Oxide keys accumulated by `computeBlendMetrics` (the `oxKeys` array). -/
inductive OxKey where
  | SiO2 | Al2O3 | Fe2O3 | CaO | MgO | Na2O | K2O | SO3 | TiO2
deriving DecidableEq

/-- Listing of the nine oxide keys in source order. -/
def oxKeys : List OxKey :=
  [.SiO2, .Al2O3, .Fe2O3, .CaO, .MgO, .Na2O, .K2O, .SO3, .TiO2]

/-- Coal document on the server side.  `idStr` is `String(c._id)` when the id
is truthy; `coal` is the name when truthy; `oxide` and `gcv` are the
`Number(x) || 0` views of the stored fields. -/
structure CoalDocS where
  idStr : Option String
  coal : Option String
  oxide : OxKey → ℚ
  gcv : ℚ

/-- Blend row as `computeBlendMetrics` receives it.  `gcv` is `none` when the
stored value is `undefined`, `null` or the empty string; `oxide k` likewise
models the guarded read of `row[k]` in the no-coal-document branch. -/
structure RowS where
  coal : CoalRef
  percentages : Option (List ℚ)
  gcv : Option ℚ
  oxide : OxKey → Option ℚ

/-- Model of the server `findCoalRef`: falsy references resolve to nothing;
otherwise the id map is consulted first, then the lowercased-name map.  The
reversed list realises that a later document overwrites an earlier one with
the same key. -/
def findCoalRefS (db : List CoalDocS) (ref : String) : Option CoalDocS :=
  if ref = "" then none
  else
    match db.reverse.find? (fun c => c.idStr == some ref) with
    | some c => some c
    | none => db.reverse.find? (fun c => c.coal.map String.toLower == some ref.toLower)

/-- Model of `coalRefForRowAndMill` (`server.js` 235-241): the per-mill entry
of an object-valued `coal` field, else the plain string, with every falsy
outcome collapsed to the empty string. -/
def coalRefForRowAndMill (row : RowS) (m : ℕ) : String :=
  match row.coal with
  | .cmap es => (coalMapGet es (toString m)).getD ""
  | .cstr st => st
  | .cnull => ""

/-- Percentage of a row at mill `m`: the array entry when present, `0` for a
missing array, a missing entry or a falsy value. -/
def percAt (row : RowS) (m : ℕ) : ℚ :=
  match row.percentages with
  | some l => l.getD m 0
  | none => 0

/-- The gcv the server uses for a row at mill `m`: the explicit row gcv when
defined, non-null and non-empty, else the matched coal document gcv, else 0. -/
def rowGcvVal (db : List CoalDocS) (row : RowS) (m : ℕ) : ℚ :=
  match row.gcv with
  | some g => g
  | none =>
    match findCoalRefS db (coalRefForRowAndMill row m) with
    | some c => c.gcv
    | none => 0

/-- Oxide value contributed by a row at mill `m`: from the matched coal
document when one resolves, otherwise from the row itself (a guarded read
that contributes 0 when the field is absent). -/
def rowOxVal (db : List CoalDocS) (row : RowS) (m : ℕ) (k : OxKey) : ℚ :=
  match findCoalRefS db (coalRefForRowAndMill row m) with
  | some c => c.oxide k
  | none => (row.oxide k).getD 0

/-- Accumulated `blendedGCV` for mill `m` (`server.js` 251-278). -/
def blendedGCVAt (db : List CoalDocS) (rows : List RowS) (m : ℕ) : ℚ :=
  rows.foldl (fun acc row => acc + rowGcvVal db row m * (percAt row m / 100)) 0

/-- Accumulated oxide `k` for mill `m` (`server.js` 251-276). -/
def oxAccumAt (db : List CoalDocS) (rows : List RowS) (m : ℕ) (k : OxKey) : ℚ :=
  rows.foldl (fun acc row => acc + rowOxVal db row m k * (percAt row m / 100)) 0

/-- Sum of the nine oxide values of a mix, as both `calcAFT` and the
`oxTotal` check compute it. -/
def oxTotal (ox : OxKey → ℚ) : ℚ :=
  (oxKeys.map ox).sum

/-- Linear AFT formula used when `SiO2 + Al2O3 < 55` (`server.js` 200-201). -/
def aftLow (ox : OxKey → ℚ) : ℚ :=
  1245 + 1.1 * ox .SiO2 + 0.95 * ox .Al2O3 - 2.5 * ox .Fe2O3 - 2.98 * ox .CaO
    - 4.5 * ox .MgO - 7.89 * (ox .Na2O + ox .K2O) - 1.7 * ox .SO3 - 0.63 * ox .TiO2

/-- Linear AFT formula used when `55 ≤ SiO2 + Al2O3 < 75` (`server.js`
203-204). -/
def aftMid (ox : OxKey → ℚ) : ℚ :=
  1323 + 1.45 * ox .SiO2 + 0.683 * ox .Al2O3 - 2.39 * ox .Fe2O3 - 3.1 * ox .CaO
    - 4.5 * ox .MgO - 7.49 * (ox .Na2O + ox .K2O) - 2.1 * ox .SO3 - 0.63 * ox .TiO2

/-- Linear AFT formula used when `SiO2 + Al2O3 ≥ 75` (`server.js` 206-207). -/
def aftHigh (ox : OxKey → ℚ) : ℚ :=
  1395 + 1.2 * ox .SiO2 + 0.9 * ox .Al2O3 - 2.5 * ox .Fe2O3 - 3.1 * ox .CaO
    - 4.5 * ox .MgO - 7.2 * (ox .Na2O + ox .K2O) - 1.7 * ox .SO3 - 0.63 * ox .TiO2

/-- Model of `calcAFT` (`server.js` 183-210): 0 on an all-zero total, else
one of three linear formulas selected by `SiO2 + Al2O3`. -/
def calcAFT (ox : OxKey → ℚ) : ℚ :=
  if oxTotal ox = 0 then 0
  else if ox .SiO2 + ox .Al2O3 < 55 then aftLow ox
  else if ox .SiO2 + ox .Al2O3 < 75 then aftMid ox
  else aftHigh ox

/-- The per-mill AFT entry (`server.js` 279-281): `null` exactly when the
accumulated oxides sum to zero, else `calcAFT` of the accumulated mix. -/
def aftPerMillAt (db : List CoalDocS) (rows : List RowS) (m : ℕ) : Option ℚ :=
  if oxTotal (oxAccumAt db rows m) = 0 then none
  else some (calcAFT (oxAccumAt db rows m))

/-- Flow used for mill `m`: the array entry, with `0` for a missing or falsy
entry. -/
def flowAt (flows : List ℚ) (m : ℕ) : ℚ :=
  flows.getD m 0

/-- Accumulator of the totals loop of `computeBlendMetrics` (`server.js`
285-300). -/
structure SrvAcc where
  totalFlow : ℚ
  weightedGCV : ℚ
  weightedAFT : ℚ
  contributedAFTFlow : ℚ
deriving DecidableEq

/-- Result record of `computeBlendMetrics`, restricted to the fields the
claims are about. -/
structure SrvMetrics where
  totalFlow : ℚ
  avgGCV : ℚ
  avgAFT : Option ℚ
  heatRate : Option ℚ
  aftPerMill : List (Option ℚ)
  blendedGCVPerMill : List ℚ
deriving DecidableEq

/-- One step of the totals loop: add the mill flow to the total, the flow
times the blended gcv to the gcv numerator, and, when the mill has a non-null
AFT, the flow and flow-times-AFT to the contributed sums. -/
def srvStep (flows : List ℚ) (bg : List ℚ) (ap : List (Option ℚ)) (a : SrvAcc) (m : ℕ) :
    SrvAcc :=
  let flow := flowAt flows m
  let a1 := { a with
    totalFlow := a.totalFlow + flow
    weightedGCV := a.weightedGCV + flow * bg.getD m 0 }
  match ap.getD m none with
  | some v => { a1 with
      weightedAFT := a1.weightedAFT + flow * v
      contributedAFTFlow := a1.contributedAFTFlow + flow }
  | none => a1

/-- Model of the GCV / AFT / heat-rate part of `computeBlendMetrics`
(`server.js` 213-356).  `generation` is `none` when the request supplied no
usable number; the `generation && generation > 0` guard of the source then
fails. -/
def computeBlendMetrics (db : List CoalDocS) (rows : List RowS) (flows : List ℚ)
    (generation : Option ℚ) : SrvMetrics :=
  let bg := (List.range 6).map (blendedGCVAt db rows)
  let ap := (List.range 6).map (aftPerMillAt db rows)
  let acc := (List.range 6).foldl (srvStep flows bg ap) ⟨0, 0, 0, 0⟩
  let avgGCV := if 0 < acc.totalFlow then acc.weightedGCV / acc.totalFlow else 0
  let avgAFT :=
    if 0 < acc.contributedAFTFlow then some (acc.weightedAFT / acc.contributedAFTFlow)
    else none
  let heatRate :=
    match generation with
    | some g => if 0 < g ∧ 0 < acc.totalFlow then some (acc.totalFlow * avgGCV / g) else none
    | none => none
  { totalFlow := acc.totalFlow
    avgGCV := avgGCV
    avgAFT := avgAFT
    heatRate := heatRate
    aftPerMill := ap
    blendedGCVPerMill := bg }

/-! ### List helpers -/

/-- Bridge between `getD` and `get?`. -/
theorem getD_eq_get?_getD {α : Type _} (l : List α) (n : ℕ) (d : α) :
    l.getD n d = (l.get? n).getD d := by
  simp [List.getD_eq_getElem?_getD, List.get?_eq_getElem?]

/-- Additive fold over a list is the sum of the mapped list. -/
theorem foldl_add_eq_sum {α : Type _} (f : α → ℚ) :
    ∀ (l : List α) (a : ℚ), l.foldl (fun acc x => acc + f x) a = a + (l.map f).sum
  | [], a => by simp
  | x :: l, a => by
    simp only [List.foldl_cons, List.map_cons, List.sum_cons]
    rw [foldl_add_eq_sum f l (a + f x)]
    ring

/-- Sum of a function mapped over `List.range` equals the `Finset.range` sum. -/
theorem sum_map_range_eq_sum {M : Type _} [AddCommMonoid M] (f : ℕ → M) :
    ∀ n : ℕ, ((List.range n).map f).sum = ∑ i ∈ Finset.range n, f i
  | 0 => by simp
  | n + 1 => by
    rw [List.range_succ, List.map_append, List.sum_append, Finset.sum_range_succ,
      sum_map_range_eq_sum f n]
    simp

/-! ### Characterisation of findFrom -/

/-- A successful `findFrom` hit lies at or after the start, carries a
non-null entry, and every index between the start and the hit is null. -/
theorem findFrom_some_spec :
    ∀ (seq : List (Option ℕ)) (s j : ℕ), findFrom seq s = some j →
      s ≤ j ∧ (∃ v, seq.get? j = some (some v)) ∧
        ∀ k, s ≤ k → k < j → seq.getD k none = none
  | [], s, j, h => by simp [findFrom] at h
  | e :: rest, 0, j, h => by
    match e, h with
    | some v, h =>
      simp only [findFrom, Option.some.injEq] at h
      subst h
      exact ⟨Nat.le_refl 0, ⟨v, rfl⟩, fun k hk hk0 => absurd hk0 (Nat.not_lt_zero k)⟩
    | none, h =>
      simp only [findFrom, Option.map_eq_some'] at h
      obtain ⟨j0, hj0, rfl⟩ := h
      obtain ⟨-, ⟨v, hv⟩, hmin⟩ := findFrom_some_spec rest 0 j0 hj0
      refine ⟨Nat.zero_le _, ⟨v, by simpa using hv⟩, fun k _ hk => ?_⟩
      match k with
      | 0 => rfl
      | k + 1 =>
        simpa using hmin k (Nat.zero_le k) (Nat.lt_of_succ_lt_succ hk)
  | e :: rest, s + 1, j, h => by
    simp only [findFrom, Option.map_eq_some'] at h
    obtain ⟨j0, hj0, rfl⟩ := h
    obtain ⟨hle, ⟨v, hv⟩, hmin⟩ := findFrom_some_spec rest s j0 hj0
    refine ⟨Nat.succ_le_succ hle, ⟨v, by simpa using hv⟩, fun k hk hk2 => ?_⟩
    match k, hk with
    | k + 1, hk =>
      simpa using hmin k (Nat.le_of_succ_le_succ hk) (Nat.lt_of_succ_lt_succ hk2)

/-- A failed `findFrom` means every entry from the start on is null. -/
theorem findFrom_none_spec :
    ∀ (seq : List (Option ℕ)) (s : ℕ), findFrom seq s = none →
      ∀ j, s ≤ j → seq.getD j none = none
  | [], _, _, j, _ => by simp
  | e :: rest, 0, h, j, _ => by
    match e, h with
    | some v, h => simp [findFrom] at h
    | none, h =>
      simp only [findFrom, Option.map_eq_none'] at h
      match j with
      | 0 => rfl
      | j + 1 => simpa using findFrom_none_spec rest 0 h j (Nat.zero_le j)
  | e :: rest, s + 1, h, j, hj => by
    simp only [findFrom, Option.map_eq_none'] at h
    match j, hj with
    | j + 1, hj =>
      simpa using findFrom_none_spec rest s h j (Nat.le_of_succ_le_succ hj)

/-- Converse direction: the first non-null entry at or after the start is
found. -/
theorem findFrom_eq_some (seq : List (Option ℕ)) (s j v : ℕ)
    (hs : s ≤ j) (hj : seq.get? j = some (some v))
    (hmin : ∀ k, s ≤ k → k < j → seq.getD k none = none) :
    findFrom seq s = some j := by
  cases h : findFrom seq s with
  | none =>
    have := findFrom_none_spec seq s h j hs
    rw [getD_eq_get?_getD, hj] at this
    simp at this
  | some j2 =>
    obtain ⟨hle2, ⟨v2, hv2⟩, hmin2⟩ := findFrom_some_spec seq s j2 h
    rcases Nat.lt_trichotomy j2 j with hlt | rfl | hlt
    · have := hmin j2 hle2 hlt
      rw [getD_eq_get?_getD, hv2] at this
      simp at this
    · rfl
    · have := hmin2 j hs hlt
      rw [getD_eq_get?_getD, hj] at this
      simp at this

/-! ### Claim C2: the per-bunker tick behaviour -/

/-- C2: on each one-second tick of `NextBlendBinder`, for every bunker `b`
(whose sequence and state cell the parallel arrays hold at index `b`): a null
remaining time leaves the cell unchanged; a positive remaining time is
decremented by exactly one with the active index unchanged; and a remaining
time of zero advances the active index to the smallest sequence index greater
than the current one holding a non-null entry, loading that entry as the new
remaining time, or clears both cells to null when no such index exists. -/
theorem nextBlendBinder_tick_spec (seqs : List (List (Option ℕ)))
    (st : List (Option ℕ × Option ℕ)) (b : ℕ) (seq : List (Option ℕ))
    (cell : Option ℕ × Option ℕ) (ai : Option ℕ) (r i : ℕ)
    (hseq : seqs.get? b = some seq) (hcell : st.get? b = some cell) :
    (tickAll seqs st).get? b = some (tickBunker seq cell) ∧
    tickBunker seq (ai, none) = (ai, none) ∧
    (0 < r → tickBunker seq (ai, some r) = (ai, some (r - 1))) ∧
    (∀ j v, i < j → seq.get? j = some (some v) →
      (∀ k, i < k → k < j → seq.getD k none = none) →
      tickBunker seq (some i, some 0) = (some j, some v)) ∧
    ((∀ j, i < j → seq.getD j none = none) →
      tickBunker seq (some i, some 0) = (none, none)) := by
  refine ⟨?_, rfl, ?_, ?_, ?_⟩
  · rw [tickAll, List.get?_zipWith', hseq, hcell]
    rfl
  · intro hr
    simp [tickBunker, hr]
  · intro j v hij hj hmin
    have hfind : findFrom seq (i + 1) = some j :=
      findFrom_eq_some seq (i + 1) j v hij hj
        (fun k hk1 hk2 => hmin k hk1 hk2)
    have hthere : seq[j]?.getD none = some v := by
      rw [← List.get?_eq_getElem?, hj]; rfl
    simp [tickBunker, hfind, hthere]
  · intro hnone
    have hfind : findFrom seq (i + 1) = none := by
      cases h : findFrom seq (i + 1) with
      | none => rfl
      | some j =>
        obtain ⟨hle, ⟨v, hv⟩, -⟩ := findFrom_some_spec seq (i + 1) j h
        have := hnone j hle
        rw [getD_eq_get?_getD, hv] at this
        simp at this
    simp [tickBunker, hfind]

/-- Witness for C2 on the sequence `[some 0, none, some 5]`: each clause of
the tick specification evaluated at a concrete cell. -/
theorem nextBlendBinder_tick_witness :
    (tickAll [[some 0, none, some 5]] [(some 0, some 0)]).get? 0
        = some (tickBunker [some 0, none, some 5] (some 0, some 0)) ∧
    tickBunker [some 0, none, some 5] ((some 3 : Option ℕ), (none : Option ℕ)) = (some 3, none) ∧
    tickBunker [some 0, none, some 5] (some 2, some 4) = (some 2, some 3) ∧
    tickBunker [some 0, none, some 5] (some 0, some 0) = (some 2, some 5) ∧
    tickBunker [some 0, none, some 5] (some 2, some 0) = (none, none) := by
  have h1 := nextBlendBinder_tick_spec [[some 0, none, some 5]] [(some 0, some 0)] 0
    [some 0, none, some 5] (some 0, some 0) (some 3) 4 0 rfl rfl
  have h2 := nextBlendBinder_tick_spec [[some 0, none, some 5]] [(some 0, some 0)] 0
    [some 0, none, some 5] (some 0, some 0) (some 2) 4 2 rfl rfl
  refine ⟨h1.1, h1.2.1, h2.2.2.1 (by decide), ?_, ?_⟩
  · refine h1.2.2.2.1 2 5 (by decide) rfl ?_
    intro k hk1 hk2
    have : k = 1 := by omega
    subst this
    rfl
  · refine h2.2.2.2.2 ?_
    intro j hj
    rw [getD_eq_get?_getD, List.get?_eq_none.mpr (by simp; omega)]
    rfl

/-! ### Binder state invariants -/

/-- Invariant of one binder cell: pointer and remaining time are null
together, and a live pointer addresses a non-null sequence entry whose value
bounds the remaining time. -/
def BInv (seq : List (Option ℕ)) : Option ℕ × Option ℕ → Prop
  | (none, none) => True
  | (some i, some r) => ∃ v, seq.get? i = some (some v) ∧ r ≤ v
  | (none, some _) => False
  | (some _, none) => False

/-- Resetting establishes the cell invariant. -/
theorem resetBunker_BInv (seq : List (Option ℕ)) : BInv seq (resetBunker seq) := by
  cases h : findFrom seq 0 with
  | none => simp [resetBunker, h, BInv]
  | some j =>
    obtain ⟨-, ⟨v, hv⟩, -⟩ := findFrom_some_spec seq 0 j h
    have hD : seq.getD j none = some v := by rw [getD_eq_get?_getD, hv]; rfl
    simp only [resetBunker, h, hD, BInv]
    exact ⟨v, hv, Nat.le_refl v⟩

/-- Ticking preserves the cell invariant. -/
theorem tickBunker_BInv (seq : List (Option ℕ)) (cell : Option ℕ × Option ℕ)
    (h : BInv seq cell) : BInv seq (tickBunker seq cell) := by
  obtain ⟨ai, rem⟩ := cell
  cases rem with
  | none => exact h
  | some r =>
    cases ai with
    | none => exact absurd h (fun hf => hf)
    | some i =>
      obtain ⟨v, hv, hrv⟩ := h
      by_cases hr : 0 < r
      · simp only [tickBunker, hr, if_pos, BInv]
        exact ⟨v, hv, Nat.le_trans (Nat.sub_le r 1) hrv⟩
      · cases hfind : findFrom seq (i + 1) with
        | none => simp [tickBunker, hr, hfind, BInv]
        | some j =>
          obtain ⟨-, ⟨w, hw⟩, -⟩ := findFrom_some_spec seq (i + 1) j hfind
          have hD : seq.getD j none = some w := by rw [getD_eq_get?_getD, hw]; rfl
          simp only [tickBunker, hr, if_neg hr, hfind, hD, BInv]
          exact ⟨w, hw, Nat.le_refl w⟩

/-- Ticking never moves a live pointer backwards. -/
theorem tickBunker_mono (seq : List (Option ℕ)) (cell : Option ℕ × Option ℕ)
    (i i2 : ℕ) (hinv : BInv seq cell) (h1 : cell.1 = some i)
    (h2 : (tickBunker seq cell).1 = some i2) : i ≤ i2 := by
  obtain ⟨ai, rem⟩ := cell
  simp only at h1
  subst h1
  cases rem with
  | none => simp only [tickBunker] at h2; injection h2 with h2; omega
  | some r =>
    by_cases hr : 0 < r
    · simp only [tickBunker, if_pos hr] at h2
      injection h2 with h2
      omega
    · cases hfind : findFrom seq (i + 1) with
      | none => simp [tickBunker, if_neg hr, hfind] at h2
      | some j =>
        obtain ⟨hle, -, -⟩ := findFrom_some_spec seq (i + 1) j hfind
        simp only [tickBunker, if_neg hr, hfind] at h2
        injection h2 with h2
        omega

/-- The per-bunker view of a reachable state: bunker `b` of `reach seqs n`
is the n-fold per-bunker tick of the per-bunker reset. -/
theorem reach_get? (seqs : List (List (Option ℕ))) :
    ∀ (n b : ℕ), (reach seqs n).get? b
      = (seqs.get? b).map (fun seq => (tickBunker seq)^[n] (resetBunker seq))
  | 0, b => by simp [reach, initState, List.get?_map]
  | n + 1, b => by
    have : reach seqs (n + 1) = tickAll seqs (reach seqs n) := by
      simp [reach, Function.iterate_succ_apply']
    rw [this, tickAll, List.get?_zipWith', reach_get? seqs n b]
    cases h : seqs.get? b with
    | none => rfl
    | some seq => simp [Function.iterate_succ_apply']

/-- Reachable states keep one cell per bunker. -/
theorem reach_length (seqs : List (List (Option ℕ))) (n : ℕ) :
    (reach seqs n).length = seqs.length := by
  induction n with
  | zero => simp [reach, initState]
  | succ n ih =>
    have : reach seqs (n + 1) = tickAll seqs (reach seqs n) := by
      simp [reach, Function.iterate_succ_apply']
    rw [this, tickAll, List.length_zipWith, ih, Nat.min_self]

/-- Every cell of a reachable state satisfies the invariant. -/
theorem reach_BInv (seq : List (Option ℕ)) (n : ℕ) :
    BInv seq ((tickBunker seq)^[n] (resetBunker seq)) := by
  induction n with
  | zero => exact resetBunker_BInv seq
  | succ n ih =>
    rw [Function.iterate_succ_apply']
    exact tickBunker_BInv seq _ ih

/-- Sequence lengths produced by `buildSequencesFromBlend`: one entry per
stored layer, for every bunker index. -/
theorem buildSequences_length_at (blend : BlendC) (b : ℕ) :
    ((buildSequencesFromBlend blend).getD b []).length = (layersAt blend b).length := by
  by_cases hb : b < bunkerCount blend
  · rw [buildSequencesFromBlend, getD_eq_get?_getD, List.get?_eq_getElem?,
      List.getElem?_map, List.getElem?_range hb]
    simp
  · have h1 : (buildSequencesFromBlend blend).get? b = none := by
      rw [List.get?_eq_none]
      simp [buildSequencesFromBlend, Nat.le_of_not_lt hb]
    rw [getD_eq_get?_getD, h1]
    have h2 : layersAt blend b = [] := by
      unfold layersAt bunkerCount at *
      cases hbk : blend.bunkers with
      | none => simp
      | some bs =>
        rw [hbk] at hb
        simp only [Option.some_bind]
        rw [List.get?_eq_none.mpr (Nat.le_of_not_lt hb)]
    rw [h2]
    rfl

/-! ### Claim C9: reachable-state invariants -/

/-- C9: every reachable `NextBlendBinder` state (after construction, any
number of ticks, and any `updateBlend` calls, each of which resets from fresh
sequences) keeps one cell per bunker; in every cell the active index and the
remaining time are null together; a live index addresses a non-null sequence
entry whose value bounds the remaining time from above; the active index
never decreases across a tick; and the sequences built from a blend have
exactly one entry per stored layer of each bunker. -/
theorem nextBlendBinder_invariant (seqs : List (List (Option ℕ))) (n b i : ℕ)
    (seq : List (Option ℕ)) (ai rem : Option ℕ) (blend : BlendC)
    (hseq : seqs.get? b = some seq)
    (hcell : (reach seqs n).get? b = some (ai, rem)) :
    (reach seqs n).length = seqs.length ∧
    (ai = none ↔ rem = none) ∧
    (ai = some i → ∃ v r, seq.get? i = some (some v) ∧ rem = some r ∧ r ≤ v) ∧
    (∀ ai2 rem2 i2, (reach seqs (n + 1)).get? b = some (ai2, rem2) →
      ai = some i → ai2 = some i2 → i ≤ i2) ∧
    ((buildSequencesFromBlend blend).getD b []).length = (layersAt blend b).length := by
  have hstate : (ai, rem) = (tickBunker seq)^[n] (resetBunker seq) := by
    rw [reach_get? seqs n b, hseq, Option.map_some'] at hcell
    exact (Option.some.inj hcell).symm
  have hinv : BInv seq (ai, rem) := by
    rw [hstate]; exact reach_BInv seq n
  refine ⟨reach_length seqs n, ?_, ?_, ?_, buildSequences_length_at blend b⟩
  · cases ai with
    | none =>
      cases rem with
      | none => simp
      | some r => exact absurd hinv (fun hf => hf)
    | some j =>
      cases rem with
      | none => exact absurd hinv (fun hf => hf)
      | some r => simp
  · intro hi
    subst hi
    cases rem with
    | none => exact absurd hinv (fun hf => hf)
    | some r =>
      obtain ⟨v, hv, hrv⟩ := hinv
      exact ⟨v, r, hv, rfl, hrv⟩
  · intro ai2 rem2 i2 hcell2 hai hai2
    have hstate2 : (ai2, rem2) = tickBunker seq ((tickBunker seq)^[n] (resetBunker seq)) := by
      rw [reach_get? seqs (n + 1) b, hseq, Option.map_some'] at hcell2
      rw [show n + 1 = n.succ from rfl, Function.iterate_succ_apply'] at hcell2
      exact (Option.some.inj hcell2).symm
    rw [← hstate] at hstate2
    refine tickBunker_mono seq (ai, rem) i i2 hinv (by rw [hai]) ?_
    rw [← hstate2, hai2]

/-- Witness for C9: the binder over the single sequence `[some 1, some 0]`
after one tick sits at index 0 with remaining time 0, bounded by the entry
value 1. -/
theorem nextBlendBinder_invariant_witness :
    (reach [[some 1, some 0]] 1).length = 1 ∧
    (∃ v r, ([some 1, some 0] : List (Option ℕ)).get? 0 = some (some v) ∧
      (some 0 : Option ℕ) = some r ∧ r ≤ v) := by
  have h := nextBlendBinder_invariant [[some 1, some 0]] 1 0 0 [some 1, some 0]
    (some 0) (some 0) ⟨none, none, none, none, none, none⟩ rfl (by decide)
  exact ⟨h.1, h.2.2.1 rfl⟩

/-! ### Termination measure for the countdown -/

/-- Ticks consumed by one sequence entry: its value plus the advancing tick
for a non-null entry, nothing for a null entry. -/
def entryCost : Option ℕ → ℕ
  | none => 0
  | some v => v + 1

/-- Cost of the whole tail of a sequence from position `s` on. -/
def tailCost (seq : List (Option ℕ)) (s : ℕ) : ℕ :=
  ((seq.drop s).map entryCost).sum

/-- Cost of a whole sequence: the sum over all non-null entries of the entry
value plus one. -/
def seqCost (seq : List (Option ℕ)) : ℕ :=
  (seq.map entryCost).sum

/-- Cost of a whole binder: summed over the bunkers. -/
def binderCost (seqs : List (List (Option ℕ))) : ℕ :=
  (seqs.map seqCost).sum

/-- Remaining tick count of one cell: zero for a cleared cell, else the
remaining time, the advancing tick, and the cost of the untouched tail. -/
def bmeasure (seq : List (Option ℕ)) : Option ℕ × Option ℕ → ℕ
  | (_, none) => 0
  | (ai, some r) => r + 1 + tailCost seq (match ai with | none => 0 | some i => i + 1)

/-- Cost of the whole sequence as the tail cost from zero. -/
theorem tailCost_zero (seq : List (Option ℕ)) : tailCost seq 0 = seqCost seq := by
  simp [tailCost, seqCost]

/-- Dropping one more position never increases the tail cost. -/
theorem tailCost_succ_le (seq : List (Option ℕ)) (s : ℕ) :
    tailCost seq (s + 1) ≤ tailCost seq s := by
  have hdrop : seq.drop (s + 1) = (seq.drop s).drop 1 := by
    rw [List.drop_drop]
  rw [tailCost, tailCost, hdrop]
  cases h : seq.drop s with
  | nil => simp
  | cons e l => simp [Nat.le_add_left]

/-- Tail costs are antitone in the start position. -/
theorem tailCost_antitone (seq : List (Option ℕ)) (s t : ℕ) (h : s ≤ t) :
    tailCost seq t ≤ tailCost seq s := by
  induction t with
  | zero =>
    have : s = 0 := Nat.le_zero.mp h
    subst this
    exact Nat.le_refl _
  | succ t ih =>
    rcases Nat.lt_or_ge s (t + 1) with hlt | hge
    · exact Nat.le_trans (tailCost_succ_le seq t) (ih (Nat.lt_succ_iff.mp hlt))
    · have : s = t + 1 := Nat.le_antisymm h hge
      subst this
      exact Nat.le_refl _

/-- Peeling the entry at position `j` off the tail cost. -/
theorem tailCost_get (seq : List (Option ℕ)) (j : ℕ) (e : Option ℕ)
    (h : seq.get? j = some e) :
    tailCost seq j = entryCost e + tailCost seq (j + 1) := by
  rw [List.get?_eq_getElem?] at h
  have hlt : j < seq.length := by
    by_contra hge
    rw [List.getElem?_eq_none (Nat.le_of_not_lt hge)] at h
    exact Option.noConfusion h
  have he : seq[j] = e := by
    rw [List.getElem?_eq_getElem hlt] at h
    exact Option.some.inj h
  rw [tailCost, tailCost, List.drop_eq_getElem_cons hlt, he, List.map_cons, List.sum_cons]

/-- Ticking a cell with live remaining time strictly decreases its measure. -/
theorem tickBunker_measure_lt (seq : List (Option ℕ)) (ai : Option ℕ) (r : ℕ) :
    bmeasure seq (tickBunker seq (ai, some r)) < bmeasure seq (ai, some r) := by
  by_cases hr : 0 < r
  · simp only [tickBunker, if_pos hr, bmeasure]
    omega
  · have hr0 : r = 0 := by omega
    subst hr0
    cases ai with
    | none =>
      cases hfind : findFrom seq 0 with
      | none => simp [tickBunker, hfind, bmeasure]
      | some j =>
        obtain ⟨-, ⟨v, hv⟩, -⟩ := findFrom_some_spec seq 0 j hfind
        have hD : seq.getD j none = some v := by rw [getD_eq_get?_getD, hv]; rfl
        have htail := tailCost_get seq j (some v) hv
        have hmono : tailCost seq j ≤ tailCost seq 0 := tailCost_antitone seq 0 j (Nat.zero_le j)
        simp only [tickBunker, if_neg hr, hfind, hD, bmeasure, entryCost] at *
        omega
    | some i =>
      cases hfind : findFrom seq (i + 1) with
      | none => simp [tickBunker, hfind, bmeasure]
      | some j =>
        obtain ⟨hle, ⟨v, hv⟩, -⟩ := findFrom_some_spec seq (i + 1) j hfind
        have hD : seq.getD j none = some v := by rw [getD_eq_get?_getD, hv]; rfl
        have htail := tailCost_get seq j (some v) hv
        have hmono : tailCost seq j ≤ tailCost seq (i + 1) := tailCost_antitone seq (i + 1) j hle
        simp only [tickBunker, if_neg hr, hfind, hD, bmeasure, entryCost] at *
        omega

/-- A cell whose measure is at most `k` is cleared after `k` ticks. -/
theorem iterate_tick_null (seq : List (Option ℕ)) :
    ∀ (k : ℕ) (cell : Option ℕ × Option ℕ), BInv seq cell → bmeasure seq cell ≤ k →
      (tickBunker seq)^[k] cell = (none, none)
  | 0, cell, hinv, hm => by
    obtain ⟨ai, rem⟩ := cell
    cases rem with
    | some r => simp [bmeasure] at hm
    | none =>
      cases ai with
      | some i => exact absurd hinv (fun hf => hf)
      | none => rfl
  | k + 1, cell, hinv, hm => by
    obtain ⟨ai, rem⟩ := cell
    cases rem with
    | none =>
      cases ai with
      | some i => exact absurd hinv (fun hf => hf)
      | none =>
        rw [Function.iterate_succ_apply]
        exact iterate_tick_null seq k (none, none) trivial (Nat.zero_le k)
    | some r =>
      rw [Function.iterate_succ_apply]
      refine iterate_tick_null seq k _ (tickBunker_BInv seq _ hinv) ?_
      have := tickBunker_measure_lt seq ai r
      omega

/-- A fresh reset starts with measure at most the sequence cost. -/
theorem resetBunker_measure_le (seq : List (Option ℕ)) :
    bmeasure seq (resetBunker seq) ≤ seqCost seq := by
  cases hfind : findFrom seq 0 with
  | none => simp [resetBunker, hfind, bmeasure]
  | some j =>
    obtain ⟨-, ⟨v, hv⟩, -⟩ := findFrom_some_spec seq 0 j hfind
    have hD : seq.getD j none = some v := by rw [getD_eq_get?_getD, hv]; rfl
    have htail := tailCost_get seq j (some v) hv
    have hmono : tailCost seq j ≤ tailCost seq 0 := tailCost_antitone seq 0 j (Nat.zero_le j)
    rw [tailCost_zero] at hmono
    simp only [resetBunker, hfind, hD, bmeasure, entryCost] at *
    omega

/-- Unfolding of one extra tick on a reachable state. -/
theorem reach_succ (seqs : List (List (Option ℕ))) (n : ℕ) :
    reach seqs (n + 1) = tickAll seqs (reach seqs n) := by
  simp [reach, Function.iterate_succ_apply']

/-- After `binderCost seqs` ticks every cell of the binder is cleared. -/
theorem reach_all_null (seqs : List (List (Option ℕ))) (n : ℕ)
    (h : binderCost seqs ≤ n) :
    reach seqs n = seqs.map (fun _ => ((none : Option ℕ), (none : Option ℕ))) := by
  apply List.ext_get?
  intro b
  have hmap : (seqs.map (fun _ => ((none : Option ℕ), (none : Option ℕ)))).get? b
      = (seqs.get? b).map (fun _ => ((none : Option ℕ), (none : Option ℕ))) := by
    rw [List.get?_eq_getElem?, List.get?_eq_getElem?, List.getElem?_map]
  rw [reach_get?, hmap]
  cases hseq : seqs.get? b with
  | none => rfl
  | some seq =>
    rw [Option.map_some', Option.map_some']
    congr 1
    have hmem : seq ∈ seqs := List.get?_mem hseq
    have hcost : seqCost seq ≤ binderCost seqs :=
      List.single_le_sum (fun x _ => Nat.zero_le x) _ (List.mem_map_of_mem seqCost hmem)
    exact iterate_tick_null seq n (resetBunker seq) (resetBunker_BInv seq)
      (Nat.le_trans (resetBunker_measure_le seq) (Nat.le_trans hcost h))

/-! ### Claim C7: the countdown is finite -/

/-- C7: started on any fixed blend and never given a new one, the binder
countdown is finite: after at most the sum over all bunkers and all non-null
sequence entries of the entry value plus one, plus one more tick, every
bunker has null active index and null remaining time, and every further tick
leaves the whole state unchanged. -/
theorem nextBlendBinder_countdown_finite (blend : BlendC) (n : ℕ)
    (h : binderCost (buildSequencesFromBlend blend) + 1 ≤ n) :
    reach (buildSequencesFromBlend blend) n
      = (buildSequencesFromBlend blend).map (fun _ => ((none : Option ℕ), (none : Option ℕ))) ∧
    tickAll (buildSequencesFromBlend blend) (reach (buildSequencesFromBlend blend) n)
      = reach (buildSequencesFromBlend blend) n := by
  have h1 := reach_all_null (buildSequencesFromBlend blend) n (by omega)
  have h2 := reach_all_null (buildSequencesFromBlend blend) (n + 1) (by omega)
  exact ⟨h1, by rw [← reach_succ, h2, h1]⟩

/-- Concrete one-bunker blend used by several witnesses: a single layer whose
timer is the number 2, flow 1. -/
def layerW : LayerC :=
  { timer := .num 2, percent := none, percentages := none, gcv := none, coal := "" }

/-- Concrete blend wrapping `layerW`. -/
def blendW : BlendC :=
  { bunkers := some [{ layers := [some layerW], flow := none }]
    flows := some [some 1]
    rows := none
    totalFlow := none
    generation := none
    bunkerCapacity := none }

/-- Evaluation of the sequences of `blendW`. -/
theorem buildSequences_blendW : buildSequencesFromBlend blendW = [[some 2]] := by
  simp +decide [buildSequencesFromBlend, bunkerCount, layersAt, blendW, layerW,
    seqEntryOfLayer, parseTimerToSeconds, getBunkerFlow]

/-- Witness for C7: the `blendW` countdown (cost 3) is fully cleared after 4
ticks and a further tick changes nothing. -/
theorem nextBlendBinder_countdown_finite_witness :
    reach (buildSequencesFromBlend blendW) 4
      = (buildSequencesFromBlend blendW).map (fun _ => ((none : Option ℕ), (none : Option ℕ))) ∧
    tickAll (buildSequencesFromBlend blendW) (reach (buildSequencesFromBlend blendW) 4)
      = reach (buildSequencesFromBlend blendW) 4 :=
  nextBlendBinder_countdown_finite blendW 4
    (by rw [buildSequences_blendW]; decide)

/-! ### Claim C8: the active layer is the one whose countdown runs -/

/-- C8: in every reachable binder state whose active index for bunker `b` is
`i`, `getActiveLayer` returns the stored layer of bunker `b` at original
index `layers.length - 1 - i`, and sequence entry `i` of that bunker is
exactly the entry `buildSequencesFromBlend` built from that same layer. -/
theorem getActiveLayer_spec (blend : BlendC) (n b i : ℕ) (bs : List BunkerC)
    (bk : BunkerC) (hbs : blend.bunkers = some bs) (hbk : bs.get? b = some bk)
    (hai : (mkBinder blend n).activeIdx.getD b none = some i) :
    getActiveLayer (mkBinder blend n) b
      = bk.layers.getD (bk.layers.length - 1 - i) none ∧
    ((buildSequencesFromBlend blend).getD b []).get? i
      = some (seqEntryOfLayer blend.bunkerCapacity (getBunkerFlow blend b)
          (bk.layers.getD (bk.layers.length - 1 - i) none)) := by
  have hlayersAt : layersAt blend b = bk.layers := by
    unfold layersAt
    rw [hbs, Option.some_bind, hbk]
  -- recover the cell behind the active index
  have hmapget : ((reach (buildSequencesFromBlend blend) n).map Prod.fst).get? b
      = ((reach (buildSequencesFromBlend blend) n).get? b).map Prod.fst := by
    rw [List.get?_eq_getElem?, List.get?_eq_getElem?, List.getElem?_map]
  have hai2 : (((reach (buildSequencesFromBlend blend) n).get? b).map Prod.fst).getD none
      = some i := by
    rw [← hmapget, ← getD_eq_get?_getD]
    exact hai
  cases hcell : (reach (buildSequencesFromBlend blend) n).get? b with
  | none => rw [hcell] at hai2; exact Option.noConfusion hai2
  | some cell =>
    obtain ⟨ai, rem⟩ := cell
    rw [hcell] at hai2
    simp only [Option.map_some', Option.getD_some] at hai2
    subst hai2
    -- the sequence of bunker b
    have h1 := reach_get? (buildSequencesFromBlend blend) n b
    rw [hcell] at h1
    cases hseqb : (buildSequencesFromBlend blend).get? b with
    | none => rw [hseqb] at h1; exact Option.noConfusion h1
    | some seq =>
      rw [hseqb, Option.map_some'] at h1
      have hinv : BInv seq (some i, rem) := by
        rw [Option.some.inj h1]
        exact reach_BInv seq n
      obtain ⟨v, hv, -⟩ : ∃ v, seq.get? i = some (some v) ∧
          ∀ r, rem = some r → r ≤ v := by
        cases rem with
        | none => exact absurd hinv (fun hf => hf)
        | some r =>
          obtain ⟨v, hv, hrv⟩ := hinv
          exact ⟨v, hv, fun r2 hr2 => by rw [← Option.some.inj hr2]; exact hrv⟩
      have hilen : i < seq.length := by
        rw [List.get?_eq_getElem?] at hv
        by_contra hge
        rw [List.getElem?_eq_none (Nat.le_of_not_lt hge)] at hv
        exact Option.noConfusion hv
      -- identify the sequence with the mapped reversed layers
      have hbcount : b < bunkerCount blend := by
        by_contra hge
        rw [buildSequencesFromBlend, List.get?_eq_getElem?, List.getElem?_map,
          List.getElem?_eq_none (by simpa using Nat.le_of_not_lt hge)] at hseqb
        exact Option.noConfusion hseqb
      have hseqval : seq = bk.layers.reverse.map
          (seqEntryOfLayer blend.bunkerCapacity (getBunkerFlow blend b)) := by
        rw [buildSequencesFromBlend, List.get?_eq_getElem?, List.getElem?_map,
          List.getElem?_range hbcount, Option.map_some', hlayersAt] at hseqb
        exact (Option.some.inj hseqb).symm
      have hlen : seq.length = bk.layers.length := by
        rw [hseqval, List.length_map, List.length_reverse]
      have hilen2 : i < bk.layers.length := hlen ▸ hilen
      have hlt2 : bk.layers.length - 1 - i < bk.layers.length := by omega
      have hgetD : bk.layers.getD (bk.layers.length - 1 - i) none
          = bk.layers[bk.layers.length - 1 - i] := by
        rw [getD_eq_get?_getD, List.get?_eq_getElem?, List.getElem?_eq_getElem hlt2]
        rfl
      constructor
      · -- getActiveLayer unfolds to the original-index read
        have horig : (((bk.layers.length : ℤ) - 1 - (i : ℤ)).toNat)
            = bk.layers.length - 1 - i := by omega
        have hcond : (0 : ℤ) ≤ (bk.layers.length : ℤ) - 1 - (i : ℤ) ∧
            (bk.layers.length : ℤ) - 1 - (i : ℤ) < (bk.layers.length : ℤ) := by omega
        have hai3 := hai
        simp only [mkBinder] at hai3
        simp only [getActiveLayer, mkBinder, hbs, hbk]
        simp only [hai3]
        rw [if_pos hcond, horig]
      · -- the entry the countdown runs on was built from that layer
        rw [getD_eq_get?_getD, hseqb, Option.getD_some, hseqval]
        have hrev : bk.layers.reverse[i]? = bk.layers[bk.layers.length - 1 - i]? :=
          List.getElem?_reverse hilen2
        rw [List.get?_eq_getElem?, List.getElem?_map, hrev,
          List.getElem?_eq_getElem hlt2, Option.map_some', hgetD]

/-- Witness for C8 on `blendW` at tick 0: the active index is 0 and the
active layer is the single stored layer. -/
theorem getActiveLayer_spec_witness :
    getActiveLayer (mkBinder blendW 0) 0 = some layerW ∧
    ((buildSequencesFromBlend blendW).getD 0 []).get? 0
      = some (seqEntryOfLayer blendW.bunkerCapacity (getBunkerFlow blendW 0)
          (([some layerW] : List (Option LayerC)).getD
            (([some layerW] : List (Option LayerC)).length - 1 - 0) none)) := by
  have hai : (mkBinder blendW 0).activeIdx.getD 0 none = some 0 := by
    simp only [mkBinder, buildSequences_blendW]
    decide
  have h := getActiveLayer_spec blendW 0 0 0 [{ layers := [some layerW], flow := none }]
    { layers := [some layerW], flow := none } rfl rfl hai
  exact ⟨h.1, h.2⟩

/-! ### Claim C4: sequence construction from a blend -/

/-- Positional form of `buildSequencesFromBlend`: entry `i` of bunker `b` is
built from the stored layer at original index `layers.length - 1 - i`. -/
theorem buildSequences_get_entry (blend : BlendC) (b i : ℕ)
    (hb : b < bunkerCount blend) (hi : i < (layersAt blend b).length) :
    ((buildSequencesFromBlend blend).getD b []).get? i
      = some (seqEntryOfLayer blend.bunkerCapacity (getBunkerFlow blend b)
          ((layersAt blend b).getD ((layersAt blend b).length - 1 - i) none)) := by
  have hlt2 : (layersAt blend b).length - 1 - i < (layersAt blend b).length := by omega
  have hgetD : (layersAt blend b).getD ((layersAt blend b).length - 1 - i) none
      = (layersAt blend b)[(layersAt blend b).length - 1 - i] := by
    rw [getD_eq_get?_getD, List.get?_eq_getElem?, List.getElem?_eq_getElem hlt2]
    rfl
  have houter : (buildSequencesFromBlend blend).get? b
      = some ((layersAt blend b).reverse.map
          (seqEntryOfLayer blend.bunkerCapacity (getBunkerFlow blend b))) := by
    rw [buildSequencesFromBlend, List.get?_eq_getElem?, List.getElem?_map,
      List.getElem?_range hb, Option.map_some']
  rw [getD_eq_get?_getD, houter, Option.getD_some, List.get?_eq_getElem?,
    List.getElem?_map, List.getElem?_reverse hi, List.getElem?_eq_getElem hlt2,
    Option.map_some', hgetD]

/-- C4 (amended): `buildSequencesFromBlend` produces one sequence entry per
stored layer of each bunker, entry `i` coming from the layer at original
index `layers.length - 1 - i`; the entry is the floored, zero-clamped parsed
timer whenever the timer parses; otherwise, when the blend has a numeric
`bunkerCapacity`, the bunker flow is a number greater than zero and the layer
percent is non-zero, it is `max 0 (ceil ((pct / 100) * capacity / flow *
3600))` seconds; and it is null in every remaining case, including a null
stored layer.  (The amendment over the original claim is the clamp `max 0`:
a negative percent makes the raw ceiling negative while the code stores 0.) -/
theorem buildSequences_spec (blend : BlendC) (b i : ℕ)
    (hb : b < bunkerCount blend) (hi : i < (layersAt blend b).length) :
    ((buildSequencesFromBlend blend).getD b []).length = (layersAt blend b).length ∧
    (∀ L t, (layersAt blend b).getD ((layersAt blend b).length - 1 - i) none = some L →
      parseTimerToSeconds L.timer = some t →
      ((buildSequencesFromBlend blend).getD b []).getD i none = some (max 0 ⌊t⌋).toNat) ∧
    (∀ L cap f, (layersAt blend b).getD ((layersAt blend b).length - 1 - i) none = some L →
      parseTimerToSeconds L.timer = none → layerPct L ≠ 0 →
      blend.bunkerCapacity = some cap → getBunkerFlow blend b = some f → 0 < f →
      ((buildSequencesFromBlend blend).getD b []).getD i none
        = some (max 0 ⌈layerPct L / 100 * cap / f * 3600⌉).toNat) ∧
    ((layersAt blend b).getD ((layersAt blend b).length - 1 - i) none = none →
      ((buildSequencesFromBlend blend).getD b []).getD i none = none) ∧
    (∀ L, (layersAt blend b).getD ((layersAt blend b).length - 1 - i) none = some L →
      parseTimerToSeconds L.timer = none →
      (layerPct L = 0 ∨ blend.bunkerCapacity = none ∨ getBunkerFlow blend b = none ∨
        (∀ f, getBunkerFlow blend b = some f → ¬ 0 < f)) →
      ((buildSequencesFromBlend blend).getD b []).getD i none = none) := by
  have hkey := buildSequences_get_entry blend b i hb hi
  have hgd : ((buildSequencesFromBlend blend).getD b []).getD i none
      = seqEntryOfLayer blend.bunkerCapacity (getBunkerFlow blend b)
          ((layersAt blend b).getD ((layersAt blend b).length - 1 - i) none) := by
    rw [getD_eq_get?_getD, hkey, Option.getD_some]
  refine ⟨?_, ?_, ?_, ?_, ?_⟩
  · exact buildSequences_length_at blend b
  · intro L t hL ht
    rw [hgd, hL]
    simp [seqEntryOfLayer, ht]
  · intro L cap f hL ht hpct hcap hflow hf
    rw [hgd, hL]
    simp only [seqEntryOfLayer, ht, hcap, hflow, if_neg hpct, if_pos hf]
  · intro hL
    rw [hgd, hL]
    rfl
  · intro L hL ht hcases
    rw [hgd, hL]
    simp only [seqEntryOfLayer, ht]
    rcases hcases with hpct | hcap | hflow | hfneg
    · simp [hpct]
    · simp [hcap]
    · rw [hflow]
      cases blend.bunkerCapacity <;> simp
    · cases hcap : blend.bunkerCapacity with
      | none => simp
      | some cap =>
        cases hflow : getBunkerFlow blend b with
        | none => simp
        | some f => simp [hfneg f hflow]

/-- Layer with positive percent and no timer, for the C4 witness. -/
def layerPct50 : LayerC :=
  { timer := .vnull, percent := some 50, percentages := none, gcv := none, coal := "" }

/-- Blend wrapping `layerPct50` with capacity 100 and flow 1. -/
def blendPct : BlendC :=
  { bunkers := some [{ layers := [some layerPct50], flow := none }]
    flows := some [some 1]
    rows := none
    totalFlow := none
    generation := none
    bunkerCapacity := some 100 }

/-- Witness for C4: the flow-derived entry of `blendPct` is 180000 seconds
(half of a 100-capacity bunker at flow 1). -/
theorem buildSequences_spec_witness :
    ((buildSequencesFromBlend blendPct).getD 0 []).length = 1 ∧
    ((buildSequencesFromBlend blendPct).getD 0 []).getD 0 none = some 180000 := by
  have h := buildSequences_spec blendPct 0 0 (by decide)
    (by simp [layersAt, blendPct])
  refine ⟨by simpa [layersAt, blendPct] using h.1, ?_⟩
  have h3 := h.2.2.1 layerPct50 100 1 (by simp [layersAt, blendPct]) rfl
    (by norm_num [layerPct, layerPct50]) rfl rfl (by norm_num)
  rw [h3]
  norm_num [layerPct, layerPct50]
  decide

/-- Layer with a negative percent, refuting the unclamped formula of C4. -/
def layerNeg : LayerC :=
  { timer := .vnull, percent := some (-50), percentages := none, gcv := none, coal := "" }

/-- Blend wrapping `layerNeg` with capacity 100 and flow 1. -/
def blendNeg : BlendC :=
  { bunkers := some [{ layers := [some layerNeg], flow := none }]
    flows := some [some 1]
    rows := none
    totalFlow := none
    generation := none
    bunkerCapacity := some 100 }

/-- Counterexample to C4 as stated: on `blendNeg` the timer does not parse,
the percent is the non-zero value -50, the capacity is 100 and the flow is
the positive number 1, so the claim predicts the entry
`ceil((-50 / 100) * 100 / 1 * 3600) = -180000`; the code stores 0. -/
theorem buildSequences_spec_counterexample :
    parseTimerToSeconds layerNeg.timer = none ∧
    layerPct layerNeg = -50 ∧
    blendNeg.bunkerCapacity = some 100 ∧
    getBunkerFlow blendNeg 0 = some 1 ∧
    ((buildSequencesFromBlend blendNeg).getD 0 []).getD 0 none = some 0 ∧
    ⌈layerPct layerNeg / 100 * 100 / 1 * 3600⌉ = (-180000 : ℤ) ∧
    ((0 : ℤ) ≠ -180000) := by
  refine ⟨rfl, rfl, rfl, rfl, ?_, ?_, by decide⟩
  · simp +decide [buildSequencesFromBlend, bunkerCount, layersAt, blendNeg, layerNeg,
      seqEntryOfLayer, parseTimerToSeconds, getBunkerFlow, layerPct]
    norm_num
    rw [Int.ceil_le]
    norm_num
  · have hpct : layerPct layerNeg = -50 := rfl
    rw [hpct]
    rw [show (-50 : ℚ) / 100 * 100 / 1 * 3600 = ((-180000 : ℤ) : ℚ) by norm_num]
    exact Int.ceil_intCast _

/-! ### Claim C10: behaviour of parseTimerToSeconds -/

/-- Dropping with a predicate no element satisfies is the identity. -/
theorem dropWhile_eq_self_of {p : Char → Bool} :
    ∀ l : List Char, (∀ x ∈ l, p x = false) → l.dropWhile p = l
  | [], _ => rfl
  | c :: t, h => by
    have := h c (List.mem_cons_self c t)
    simp [List.dropWhile_cons, this]

/-- Trimming a string without whitespace is the identity. -/
theorem jsTrim_eq_self (l : List Char) (h : ∀ x ∈ l, isJsSpace x = false) :
    jsTrim l = l := by
  rw [jsTrim, dropWhile_eq_self_of l h, dropWhile_eq_self_of l.reverse
    (fun x hx => h x (List.mem_reverse.mp hx)), List.reverse_reverse]

/-- Decimal digits are not whitespace. -/
theorem isJsSpace_eq_false_of_digit (c : Char) (h : c.isDigit = true) :
    isJsSpace c = false := by
  have h1 : c ≠ ' ' := by rintro rfl; exact absurd h (by decide)
  have h2 : c ≠ '\t' := by rintro rfl; exact absurd h (by decide)
  have h3 : c ≠ '\n' := by rintro rfl; exact absurd h (by decide)
  have h4 : c ≠ '\r' := by rintro rfl; exact absurd h (by decide)
  simp [isJsSpace, h1, h2, h3, h4]

/-- Leading zeros do not change the numeric value of a digit string. -/
theorem natOfDigits_dropWhile_zero :
    ∀ l : List Char, natOfDigits (l.dropWhile (fun c => c = '0')) = natOfDigits l
  | [] => rfl
  | c :: t => by
    by_cases hc : c = '0'
    · subst hc
      have hstep : ('0' :: t).dropWhile (fun c => c = '0')
          = t.dropWhile (fun c => c = '0') := by
        simp [List.dropWhile_cons]
      rw [hstep, natOfDigits_dropWhile_zero t]
      rfl
    · rw [List.dropWhile_cons]
      simp [hc]

/-- The decimal reading of an all-digit string. -/
theorem jsDec_digits (l : List Char) (hne : l ≠ []) (h : ∀ x ∈ l, x.isDigit = true) :
    jsDec l = some ((natOfDigits l : ℕ) : ℚ) := by
  have htake : l.takeWhile Char.isDigit = l :=
    List.takeWhile_eq_self_iff.mpr (fun x hx => by simp [h x hx])
  have hdrop : l.dropWhile Char.isDigit = [] :=
    List.dropWhile_eq_nil_iff.mpr (fun x hx => by simp [h x hx])
  simp only [jsDec, htake, hdrop]
  rw [if_neg hne]

/-- The `Number` conversion of a non-empty all-digit string. -/
theorem jsNumber_digits (l : List Char) (hne : l ≠ []) (h : ∀ x ∈ l, x.isDigit = true) :
    jsNumber l = some ((natOfDigits l : ℕ) : ℚ) := by
  have htrim : jsTrim l = l :=
    jsTrim_eq_self l (fun x hx => isJsSpace_eq_false_of_digit x (h x hx))
  simp only [jsNumber, htrim]
  rw [if_neg hne]
  split
  · exact absurd (h '+' (List.mem_cons_self _ _)) (by decide)
  · exact absurd (h '-' (List.mem_cons_self _ _)) (by decide)
  · exact jsDec_digits l hne h

/-- The colon-part reading of an all-digit string. -/
theorem pnumPart_digits (l : List Char) (h : ∀ x ∈ l, x.isDigit = true) :
    pnumPart l = some ((natOfDigits l : ℕ) : ℚ) := by
  by_cases hy : l.dropWhile (fun c => c = '0') = []
  · have hval : natOfDigits l = 0 := by
      rw [← natOfDigits_dropWhile_zero l, hy]
      rfl
    simp [pnumPart, hy, hval]
  · have hsub : ∀ x ∈ l.dropWhile (fun c => c = '0'), x.isDigit = true :=
      fun x hx => h x (List.dropWhile_sublist _ |>.mem hx)
    simp only [pnumPart, if_neg hy]
    rw [jsNumber_digits _ hy hsub, natOfDigits_dropWhile_zero l]

/-- Splitting never yields an empty part list. -/
theorem jsSplit_ne_nil (sep : Char) : ∀ l : List Char, jsSplit sep l ≠ []
  | [] => by simp [jsSplit]
  | c :: t => by
    simp only [jsSplit]
    by_cases hc : c = sep
    · simp [hc]
    · simp only [hc, if_neg]
      cases h : jsSplit sep t <;> simp

/-- Splitting a string whose head block is separator-free peels that block. -/
theorem jsSplit_append (sep : Char) :
    ∀ a r : List Char, sep ∉ a → jsSplit sep (a ++ sep :: r) = a :: jsSplit sep r
  | [], r, _ => by simp [jsSplit]
  | c :: t, r, h => by
    have hc : ¬(c = sep) := fun hcs => h (hcs ▸ List.mem_cons_self c t)
    have ht : sep ∉ t := fun hts => h (List.mem_cons_of_mem c hts)
    simp only [List.cons_append, jsSplit, if_neg hc, List.append_eq]
    rw [jsSplit_append sep t r ht]

/-- Splitting a separator-free string is trivial. -/
theorem jsSplit_no_sep (sep : Char) :
    ∀ l : List Char, sep ∉ l → jsSplit sep l = [l]
  | [], _ => rfl
  | c :: t, h => by
    have hc : ¬(c = sep) := fun hcs => h (hcs ▸ List.mem_cons_self c t)
    have ht : sep ∉ t := fun hts => h (List.mem_cons_of_mem c hts)
    simp only [jsSplit, if_neg hc]
    rw [jsSplit_no_sep sep t ht]

/-- Casting a clamped integer to the rationals goes through its `toNat`. -/
theorem intClamp_cast (z : ℤ) : ((max 0 z : ℤ) : ℚ) = (((max 0 z).toNat : ℕ) : ℚ) := by
  exact_mod_cast (Int.toNat_of_nonneg (le_max_left 0 z)).symm

/-- Evaluation of the string branch on `[object Object]`. -/
theorem parseJsString_objectString : parseJsString objectString = some 0 := by
  simp +decide [parseJsString, objectString, jsTrim, isJsSpace, jsNumber, jsDec, natOfDigits]

/-- Every non-string input, and every string without a colon, parses to null
or to a nonnegative whole number of seconds. -/
theorem parseTimer_noColon_ok (v : TimerVal)
    (hnc : ∀ s, v = .str s → ':' ∉ jsTrim s) :
    parseTimerToSeconds v = none ∨
      ∃ n : ℕ, parseTimerToSeconds v = some ((n : ℕ) : ℚ) := by
  have hstr : ∀ s : List Char, ':' ∉ jsTrim s →
      parseJsString s = none ∨ ∃ n : ℕ, parseJsString s = some ((n : ℕ) : ℚ) := by
    intro s hs
    by_cases hemp : jsTrim s = []
    · left
      simp [parseJsString, hemp]
    · cases hnum : jsNumber ((jsTrim s).filter (fun c => c.isDigit || c = '.' || c = '-')) with
      | none =>
        left
        simp [parseJsString, hemp, hs, hnum]
      | some n =>
        right
        refine ⟨(max 0 ⌊n⌋).toNat, ?_⟩
        simp only [parseJsString, if_neg hemp, hnum]
        rw [if_neg hs, intClamp_cast]
    ----
  have hobj : parseMobjRest none = some ((0 : ℕ) : ℚ) := by
    simpa using parseJsString_objectString
  cases v with
  | vnull => exact Or.inl rfl
  | num q =>
    exact Or.inr ⟨(max 0 ⌊q⌋).toNat, by simp only [parseTimerToSeconds]; rw [intClamp_cast]⟩
  | str s => exact hstr s (hnc s rfl)
  | mobj ni nd =>
    have hrest : parseMobjRest nd = none ∨
        ∃ n : ℕ, parseMobjRest nd = some ((n : ℕ) : ℚ) := by
      cases nd with
      | none => exact Or.inr ⟨0, by simpa using parseJsString_objectString⟩
      | some d =>
        by_cases hd : d ≠ 0
        · refine Or.inr ⟨(max 0 ⌊d⌋).toNat, ?_⟩
          simp only [parseMobjRest, if_pos hd]
          rw [intClamp_cast]
        · refine Or.inr ⟨0, ?_⟩
          simp only [parseMobjRest, if_neg hd]
          simpa using parseJsString_objectString
    cases ni with
    | none => exact hrest
    | some i =>
      by_cases hi : i ≠ 0
      · refine Or.inr ⟨(max 0 (toInt32 i)).toNat, ?_⟩
        simp only [parseTimerToSeconds, if_pos hi]
        rw [intClamp_cast]
      · simpa only [parseTimerToSeconds, if_neg hi] using hrest

/-- A well-formed `H:M:S` string of three all-digit parts parses to exactly
`3600 * H + 60 * M + S`. -/
theorem parseTimer_hms (a b c : List Char)
    (ha : ∀ x ∈ a, x.isDigit = true) (hb : ∀ x ∈ b, x.isDigit = true)
    (hc : ∀ x ∈ c, x.isDigit = true) :
    parseTimerToSeconds (.str (a ++ ':' :: (b ++ ':' :: c)))
      = some ((3600 * natOfDigits a + 60 * natOfDigits b + natOfDigits c : ℕ) : ℚ) := by
  have hnotdig : (':' : Char).isDigit = false := by decide
  have hna : ':' ∉ a := fun hmem => by rw [ha ':' hmem] at hnotdig; exact Bool.noConfusion hnotdig
  have hnb : ':' ∉ b := fun hmem => by rw [hb ':' hmem] at hnotdig; exact Bool.noConfusion hnotdig
  have hnc : ':' ∉ c := fun hmem => by rw [hc ':' hmem] at hnotdig; exact Bool.noConfusion hnotdig
  have hnospace : ∀ x ∈ a ++ ':' :: (b ++ ':' :: c), isJsSpace x = false := by
    intro x hx
    rcases List.mem_append.mp hx with hxa | hx1
    · exact isJsSpace_eq_false_of_digit x (ha x hxa)
    · rcases List.mem_cons.mp hx1 with rfl | hx2
      · decide
      · rcases List.mem_append.mp hx2 with hxb | hx3
        · exact isJsSpace_eq_false_of_digit x (hb x hxb)
        · rcases List.mem_cons.mp hx3 with rfl | hxc
          · decide
          · exact isJsSpace_eq_false_of_digit x (hc x hxc)
  have htrim : jsTrim (a ++ ':' :: (b ++ ':' :: c)) = a ++ ':' :: (b ++ ':' :: c) :=
    jsTrim_eq_self _ hnospace
  have hmem : ':' ∈ a ++ ':' :: (b ++ ':' :: c) := by
    simp [List.mem_append]
  have hne : a ++ ':' :: (b ++ ':' :: c) ≠ [] := by
    intro h0
    rw [h0] at hmem
    exact absurd hmem (List.not_mem_nil ':')
  have hsplit : jsSplit ':' (a ++ ':' :: (b ++ ':' :: c)) = [a, b, c] := by
    rw [jsSplit_append ':' a (b ++ ':' :: c) hna, jsSplit_append ':' b c hnb,
      jsSplit_no_sep ':' c hnc]
  simp only [parseTimerToSeconds, parseJsString, htrim]
  rw [if_neg hne, if_pos hmem]
  simp only [parseColon, hsplit, List.map_cons, List.map_nil, pnumPart_digits a ha,
    pnumPart_digits b hb, pnumPart_digits c hc]
  push_cast
  ring_nf

/-- C10 (amended): `parseTimerToSeconds` returns null or a number; for every
input other than a colon-carrying string — a finite number, a wrapper object
with `$numberInt` or `$numberDouble`, a numeric string possibly containing
junk characters, an empty string, null or undefined — the result is null or a
nonnegative whole number of seconds; and a well-formed `H:M:S` string of
three nonnegative-integer parts yields exactly `3600 * H + 60 * M + S`.  (The
amendment over the original claim: a colon string with a negative or
fractional part propagates it, so the nonnegative-whole guarantee cannot
cover colon strings; see the counterexample.) -/
theorem parseTimerToSeconds_amended (v : TimerVal) (a b c : List Char) :
    ((∀ s, v = .str s → ':' ∉ jsTrim s) →
      parseTimerToSeconds v = none ∨
        ∃ n : ℕ, parseTimerToSeconds v = some ((n : ℕ) : ℚ)) ∧
    ((∀ x ∈ a, x.isDigit = true) → (∀ x ∈ b, x.isDigit = true) →
      (∀ x ∈ c, x.isDigit = true) →
      parseTimerToSeconds (.str (a ++ ':' :: (b ++ ':' :: c)))
        = some ((3600 * natOfDigits a + 60 * natOfDigits b + natOfDigits c : ℕ) : ℚ)) :=
  ⟨parseTimer_noColon_ok v, fun ha hb hc => parseTimer_hms a b c ha hb hc⟩

/-- Witness for C10: the number 5/2 parses to a nonnegative whole number, and
the digit string `1:02:3` parses to 3723 seconds. -/
theorem parseTimerToSeconds_amended_witness :
    (parseTimerToSeconds (.num (5 / 2)) = none ∨
      ∃ n : ℕ, parseTimerToSeconds (.num (5 / 2)) = some ((n : ℕ) : ℚ)) ∧
    parseTimerToSeconds (.str (['1'] ++ ':' :: (['0', '2'] ++ ':' :: ['3'])))
      = some ((3600 * natOfDigits ['1'] + 60 * natOfDigits ['0', '2']
          + natOfDigits ['3'] : ℕ) : ℚ) := by
  have h := parseTimerToSeconds_amended (.num (5 / 2)) ['1'] ['0', '2'] ['3']
  exact ⟨h.1 (fun s hs => TimerVal.noConfusion hs), h.2 (by decide) (by decide) (by decide)⟩

/-- Counterexample to C10 as stated: the colon string `0:0:-5` has three
numeric parts, yet parses to the negative number -5, so the result is neither
null nor a nonnegative whole number of seconds. -/
theorem parseTimerToSeconds_counterexample :
    parseTimerToSeconds (.str ['0', ':', '0', ':', '-', '5']) = some (-5) ∧
    ((-5 : ℚ) < 0) := by
  constructor
  · simp +decide [parseTimerToSeconds, parseJsString, parseColon, jsTrim, jsSplit, pnumPart,
      jsNumber, jsDec, natOfDigits, isJsSpace]
  · norm_num

/-! ### Claims C1 and C6: server GCV, total flow and heat rate -/

/-- Closed form of the totals loop of `computeBlendMetrics`. -/
theorem srvAcc_fold (flows : List ℚ) (bg : List ℚ) (ap : List (Option ℚ)) :
    ∀ (l : List ℕ) (a : SrvAcc),
      l.foldl (srvStep flows bg ap) a
        = { totalFlow := a.totalFlow + (l.map (fun m => flowAt flows m)).sum
            weightedGCV := a.weightedGCV + (l.map (fun m => flowAt flows m * bg.getD m 0)).sum
            weightedAFT := a.weightedAFT + (l.map (fun m =>
              match ap.getD m none with
              | some v => flowAt flows m * v
              | none => 0)).sum
            contributedAFTFlow := a.contributedAFTFlow + (l.map (fun m =>
              match ap.getD m none with
              | some _ => flowAt flows m
              | none => 0)).sum }
  | [], a => by cases a; simp
  | m :: l, a => by
    rw [List.foldl_cons, srvAcc_fold flows bg ap l (srvStep flows bg ap a m)]
    cases hap : ap.getD m none with
    | some v =>
      simp only [srvStep, hap, List.map_cons, List.sum_cons, SrvAcc.mk.injEq]
      refine ⟨by ring, by ring, by ring, by ring⟩
    | none =>
      simp only [srvStep, hap, List.map_cons, List.sum_cons, SrvAcc.mk.injEq]
      refine ⟨by ring, by ring, by ring, by ring⟩

/-- The accumulator of `computeBlendMetrics` in closed form. -/
theorem computeBlendMetrics_acc (db : List CoalDocS) (rows : List RowS) (flows : List ℚ) :
    (List.range 6).foldl
        (srvStep flows ((List.range 6).map (blendedGCVAt db rows))
          ((List.range 6).map (aftPerMillAt db rows))) ⟨0, 0, 0, 0⟩
      = { totalFlow := ∑ k ∈ Finset.range 6, flowAt flows k
          weightedGCV := ∑ k ∈ Finset.range 6, flowAt flows k
            * ((List.range 6).map (blendedGCVAt db rows)).getD k 0
          weightedAFT := ∑ k ∈ Finset.range 6,
            (match ((List.range 6).map (aftPerMillAt db rows)).getD k none with
             | some v => flowAt flows k * v
             | none => 0)
          contributedAFTFlow := ∑ k ∈ Finset.range 6,
            (match ((List.range 6).map (aftPerMillAt db rows)).getD k none with
             | some _ => flowAt flows k
             | none => 0) } := by
  rw [srvAcc_fold]
  simp only [SrvAcc.mk.injEq]
  refine ⟨?_, ?_, ?_, ?_⟩ <;> rw [sum_map_range_eq_sum] <;> ring

/-- Entries of the per-mill gcv list. -/
theorem blendedGCVPerMill_getD (db : List CoalDocS) (rows : List RowS) (flows : List ℚ)
    (generation : Option ℚ) (m : ℕ) (hm : m < 6) :
    (computeBlendMetrics db rows flows generation).blendedGCVPerMill.getD m 0
      = blendedGCVAt db rows m := by
  show (((List.range 6).map (blendedGCVAt db rows)).getD m 0) = blendedGCVAt db rows m
  rw [getD_eq_get?_getD, List.get?_eq_getElem?, List.getElem?_map,
    List.getElem?_range (by simpa using hm), Option.map_some', Option.getD_some]

/-- Entries of the per-mill AFT list. -/
theorem aftPerMill_getD (db : List CoalDocS) (rows : List RowS) (flows : List ℚ)
    (generation : Option ℚ) (m : ℕ) (hm : m < 6) :
    (computeBlendMetrics db rows flows generation).aftPerMill.getD m none
      = aftPerMillAt db rows m := by
  show (((List.range 6).map (aftPerMillAt db rows)).getD m none) = aftPerMillAt db rows m
  rw [getD_eq_get?_getD, List.get?_eq_getElem?, List.getElem?_map,
    List.getElem?_range (by simpa using hm), Option.map_some', Option.getD_some]

/-- Total flow of the computed metrics in closed form. -/
theorem computeBlendMetrics_totalFlow (db : List CoalDocS) (rows : List RowS)
    (flows : List ℚ) (generation : Option ℚ) :
    (computeBlendMetrics db rows flows generation).totalFlow
      = ∑ k ∈ Finset.range 6, flowAt flows k := by
  show ((List.range 6).foldl
      (srvStep flows ((List.range 6).map (blendedGCVAt db rows))
        ((List.range 6).map (aftPerMillAt db rows))) ⟨0, 0, 0, 0⟩).totalFlow = _
  rw [computeBlendMetrics_acc db rows flows]

/-- C1: for every rows array, flows array and generation, the server
`computeBlendMetrics` returns a total flow equal to the sum of the first six
numeric flow entries; for every mill `m < 6` a blended gcv equal to the sum
over the rows of `percentages[m] / 100` times the row gcv (the explicit row
gcv when defined, non-null and non-empty, else the matched coal document gcv,
else 0); and an average gcv equal to the flow-weighted average of the
per-mill blended gcv when the total flow is positive and 0 otherwise. -/
theorem computeBlendMetrics_gcv_spec (db : List CoalDocS) (rows : List RowS)
    (flows : List ℚ) (generation : Option ℚ) (m : ℕ) (hm : m < 6) :
    (computeBlendMetrics db rows flows generation).totalFlow
      = ∑ k ∈ Finset.range 6, flows.getD k 0 ∧
    (computeBlendMetrics db rows flows generation).blendedGCVPerMill.getD m 0
      = (rows.map (fun row => percAt row m / 100 *
          (match row.gcv with
           | some g => g
           | none =>
             match findCoalRefS db (coalRefForRowAndMill row m) with
             | some cdoc => cdoc.gcv
             | none => 0))).sum ∧
    (computeBlendMetrics db rows flows generation).avgGCV
      = (if 0 < (computeBlendMetrics db rows flows generation).totalFlow
         then (∑ k ∈ Finset.range 6, flows.getD k 0
              * (computeBlendMetrics db rows flows generation).blendedGCVPerMill.getD k 0)
            / (computeBlendMetrics db rows flows generation).totalFlow
         else 0) := by
  have htf := computeBlendMetrics_totalFlow db rows flows generation
  refine ⟨htf, ?_, ?_⟩
  · rw [blendedGCVPerMill_getD db rows flows generation m hm, blendedGCVAt,
      foldl_add_eq_sum, zero_add]
    congr 1
    apply List.map_congr_left
    intro row hrow
    rw [rowGcvVal]
    ring_nf
  · have havg : (computeBlendMetrics db rows flows generation).avgGCV
        = (if 0 < ((List.range 6).foldl
              (srvStep flows ((List.range 6).map (blendedGCVAt db rows))
                ((List.range 6).map (aftPerMillAt db rows))) ⟨0, 0, 0, 0⟩).totalFlow
           then ((List.range 6).foldl
              (srvStep flows ((List.range 6).map (blendedGCVAt db rows))
                ((List.range 6).map (aftPerMillAt db rows))) ⟨0, 0, 0, 0⟩).weightedGCV
              / ((List.range 6).foldl
              (srvStep flows ((List.range 6).map (blendedGCVAt db rows))
                ((List.range 6).map (aftPerMillAt db rows))) ⟨0, 0, 0, 0⟩).totalFlow
           else 0) := rfl
    rw [havg, computeBlendMetrics_acc db rows flows, htf]
    rfl

/-- Concrete server row used by the witnesses: explicit gcv of 3000, 40
percent at mill 0, no oxides. -/
def rowG : RowS :=
  { coal := .cnull, percentages := some [40], gcv := some 3000, oxide := fun _ => none }

/-- Witness for C1 on `rowG` with a single flow of 10 at mill 0. -/
theorem computeBlendMetrics_gcv_spec_witness :
    (computeBlendMetrics [] [rowG] [10] none).totalFlow
      = ∑ k ∈ Finset.range 6, ([10] : List ℚ).getD k 0 ∧
    (computeBlendMetrics [] [rowG] [10] none).blendedGCVPerMill.getD 0 0
      = (([rowG] : List RowS).map (fun row => percAt row 0 / 100 *
          (match row.gcv with
           | some g => g
           | none =>
             match findCoalRefS [] (coalRefForRowAndMill row 0) with
             | some cdoc => cdoc.gcv
             | none => 0))).sum ∧
    (computeBlendMetrics [] [rowG] [10] none).avgGCV
      = (if 0 < (computeBlendMetrics [] [rowG] [10] none).totalFlow
         then (∑ k ∈ Finset.range 6, ([10] : List ℚ).getD k 0
              * (computeBlendMetrics [] [rowG] [10] none).blendedGCVPerMill.getD k 0)
            / (computeBlendMetrics [] [rowG] [10] none).totalFlow
         else 0) :=
  computeBlendMetrics_gcv_spec [] [rowG] [10] none 0 (by decide)

/-- C6: the server heat rate is non-null exactly when the generation is a
positive number and the total flow is positive, in which case it equals
`totalFlow * avgGCV / generation`; in every other case it is null. -/
theorem computeBlendMetrics_heatRate_spec (db : List CoalDocS) (rows : List RowS)
    (flows : List ℚ) (generation : Option ℚ) :
    ((computeBlendMetrics db rows flows generation).heatRate ≠ none ↔
      (∃ g, generation = some g ∧ 0 < g) ∧
        0 < (computeBlendMetrics db rows flows generation).totalFlow) ∧
    (∀ g, generation = some g → 0 < g →
      0 < (computeBlendMetrics db rows flows generation).totalFlow →
      (computeBlendMetrics db rows flows generation).heatRate
        = some (((computeBlendMetrics db rows flows generation).totalFlow
            * (computeBlendMetrics db rows flows generation).avgGCV) / g)) := by
  constructor
  · constructor
    · intro hne
      cases hg : generation with
      | none =>
        rw [hg] at hne
        exact absurd rfl hne
      | some g0 =>
        rw [hg] at hne
        by_cases hcond : 0 < g0 ∧ 0 < (computeBlendMetrics db rows flows (some g0)).totalFlow
        · exact ⟨⟨g0, rfl, hcond.1⟩, hcond.2⟩
        · exfalso
          apply hne
          show (if 0 < g0 ∧ 0 < (computeBlendMetrics db rows flows (some g0)).totalFlow
              then some ((computeBlendMetrics db rows flows (some g0)).totalFlow
                * (computeBlendMetrics db rows flows (some g0)).avgGCV / g0)
              else none) = none
          rw [if_neg hcond]
    · rintro ⟨⟨g, hg, hgpos⟩, htf⟩
      subst hg
      rw [show (computeBlendMetrics db rows flows (some g)).heatRate
          = (if 0 < g ∧ 0 < (computeBlendMetrics db rows flows (some g)).totalFlow
             then some ((computeBlendMetrics db rows flows (some g)).totalFlow
               * (computeBlendMetrics db rows flows (some g)).avgGCV / g)
             else none) from rfl]
      rw [if_pos ⟨hgpos, htf⟩]
      exact fun h => Option.noConfusion h
  · intro g hg hgpos htf
    subst hg
    rw [show (computeBlendMetrics db rows flows (some g)).heatRate
        = (if 0 < g ∧ 0 < (computeBlendMetrics db rows flows (some g)).totalFlow
           then some ((computeBlendMetrics db rows flows (some g)).totalFlow
             * (computeBlendMetrics db rows flows (some g)).avgGCV / g)
           else none) from rfl]
    rw [if_pos ⟨hgpos, htf⟩]

/-- Witness for C6: one row, flow 10, generation 5. -/
theorem computeBlendMetrics_heatRate_spec_witness :
    (computeBlendMetrics [] [rowG] [10] (some 5)).heatRate
      = some (((computeBlendMetrics [] [rowG] [10] (some 5)).totalFlow
          * (computeBlendMetrics [] [rowG] [10] (some 5)).avgGCV) / 5) := by
  have h := computeBlendMetrics_heatRate_spec [] [rowG] [10] (some 5)
  refine h.2 5 rfl (by norm_num) ?_
  rw [computeBlendMetrics_totalFlow [] [rowG] [10] (some 5), ← sum_map_range_eq_sum,
    show (List.range 6) = [0, 1, 2, 3, 4, 5] from rfl]
  norm_num [flowAt]

/-! ### Claim C3: per-mill ash-fusion temperature and its average -/

/-- C3 (amended): for every input and mill `m < 6`, the per-mill AFT entry is
null exactly when the percentage-weighted oxide accumulation of the mill sums
to zero, and otherwise equals `calcAFT` of the accumulated mix; on a
non-degenerate mix `calcAFT` selects one of three linear formulas according
to whether `SiO2 + Al2O3` is below 55, below 75, or at least 75; and the
average AFT is the flow-weighted average of the non-null per-mill entries,
being null exactly when the flow contributed by those mills is not positive.
(The amendment over the original claim: the code tests `contributedAFTFlow >
0`, not `= 0`, so a negative contributed flow also yields null; see the
counterexample.) -/
theorem computeBlendMetrics_aft_amended (db : List CoalDocS) (rows : List RowS)
    (flows : List ℚ) (generation : Option ℚ) (m : ℕ) (hm : m < 6) :
    ((computeBlendMetrics db rows flows generation).aftPerMill.getD m none = none ↔
      (oxKeys.map (oxAccumAt db rows m)).sum = 0) ∧
    ((oxKeys.map (oxAccumAt db rows m)).sum ≠ 0 →
      (computeBlendMetrics db rows flows generation).aftPerMill.getD m none
        = some (calcAFT (oxAccumAt db rows m))) ∧
    (∀ ox : OxKey → ℚ, (oxKeys.map ox).sum ≠ 0 →
      calcAFT ox = (if ox .SiO2 + ox .Al2O3 < 55 then aftLow ox
        else if ox .SiO2 + ox .Al2O3 < 75 then aftMid ox else aftHigh ox)) ∧
    ((computeBlendMetrics db rows flows generation).avgAFT = none ↔
      ¬ (0 < ∑ k ∈ Finset.range 6,
        (match (computeBlendMetrics db rows flows generation).aftPerMill.getD k none with
         | some _ => flows.getD k 0
         | none => 0))) ∧
    (0 < (∑ k ∈ Finset.range 6,
        (match (computeBlendMetrics db rows flows generation).aftPerMill.getD k none with
         | some _ => flows.getD k 0
         | none => 0)) →
      (computeBlendMetrics db rows flows generation).avgAFT
        = some ((∑ k ∈ Finset.range 6,
            (match (computeBlendMetrics db rows flows generation).aftPerMill.getD k none with
             | some v => flows.getD k 0 * v
             | none => 0))
          / (∑ k ∈ Finset.range 6,
            (match (computeBlendMetrics db rows flows generation).aftPerMill.getD k none with
             | some _ => flows.getD k 0
             | none => 0)))) := by
  have h1 : (computeBlendMetrics db rows flows generation).aftPerMill.getD m none
      = aftPerMillAt db rows m := aftPerMill_getD db rows flows generation m hm
  have hap : (computeBlendMetrics db rows flows generation).aftPerMill
      = (List.range 6).map (aftPerMillAt db rows) := rfl
  have havg : (computeBlendMetrics db rows flows generation).avgAFT
      = (if 0 < ∑ k ∈ Finset.range 6,
            (match ((List.range 6).map (aftPerMillAt db rows)).getD k none with
             | some _ => flowAt flows k
             | none => 0)
         then some ((∑ k ∈ Finset.range 6,
            (match ((List.range 6).map (aftPerMillAt db rows)).getD k none with
             | some v => flowAt flows k * v
             | none => 0))
           / ∑ k ∈ Finset.range 6,
            (match ((List.range 6).map (aftPerMillAt db rows)).getD k none with
             | some _ => flowAt flows k
             | none => 0))
         else none) := by
    show (if 0 < ((List.range 6).foldl
        (srvStep flows ((List.range 6).map (blendedGCVAt db rows))
          ((List.range 6).map (aftPerMillAt db rows))) ⟨0, 0, 0, 0⟩).contributedAFTFlow
      then some (((List.range 6).foldl
        (srvStep flows ((List.range 6).map (blendedGCVAt db rows))
          ((List.range 6).map (aftPerMillAt db rows))) ⟨0, 0, 0, 0⟩).weightedAFT
        / ((List.range 6).foldl
        (srvStep flows ((List.range 6).map (blendedGCVAt db rows))
          ((List.range 6).map (aftPerMillAt db rows))) ⟨0, 0, 0, 0⟩).contributedAFTFlow)
      else none) = _
    rw [computeBlendMetrics_acc db rows flows]
  refine ⟨?_, ?_, ?_, ?_, ?_⟩
  · rw [h1, aftPerMillAt]
    by_cases h0 : oxTotal (oxAccumAt db rows m) = 0
    · rw [if_pos h0]
      exact iff_of_true rfl h0
    · rw [if_neg h0]
      exact iff_of_false (fun h => Option.noConfusion h) h0
  · intro hne
    have hne2 : oxTotal (oxAccumAt db rows m) ≠ 0 := hne
    rw [h1, aftPerMillAt, if_neg hne2]
  · intro ox hne
    have hne2 : oxTotal ox ≠ 0 := hne
    rw [calcAFT, if_neg hne2]
  · simp only [hap, havg, flowAt]
    by_cases hpos : 0 < ∑ k ∈ Finset.range 6,
        (match ((List.range 6).map (aftPerMillAt db rows)).getD k none with
         | some _ => flows.getD k 0
         | none => 0)
    · rw [if_pos hpos]
      exact iff_of_false (fun h => Option.noConfusion h) (fun h => h hpos)
    · rw [if_neg hpos]
      exact iff_of_true rfl hpos
  · intro hpos
    simp only [hap, havg, flowAt] at hpos ⊢
    rw [if_pos hpos]

/-- Concrete server row with an explicit SiO2 oxide of 10 at 100 percent on
mill 0, used by the C3 witness and counterexample. -/
def rowOx : RowS :=
  { coal := .cnull, percentages := some [100], gcv := none,
    oxide := fun k => match k with | .SiO2 => some 10 | _ => none }

/-- The mill-0 oxide accumulation of `rowOx` sums to 10. -/
theorem rowOx_oxTotal : oxTotal (oxAccumAt [] [rowOx] 0) = 10 := by
  simp only [oxTotal, oxKeys, oxAccumAt, rowOxVal, rowOx, findCoalRefS, coalRefForRowAndMill,
    percAt, List.foldl_cons, List.foldl_nil, List.map_cons, List.map_nil, List.sum_cons,
    List.sum_nil]
  norm_num

/-- Every later mill of `rowOx` accumulates no oxides. -/
theorem rowOx_oxTotal_succ (m : ℕ) : oxTotal (oxAccumAt [] [rowOx] (m + 1)) = 0 := by
  simp only [oxTotal, oxKeys, oxAccumAt, rowOxVal, rowOx, findCoalRefS, coalRefForRowAndMill,
    percAt, List.foldl_cons, List.foldl_nil, List.map_cons, List.map_nil, List.sum_cons,
    List.sum_nil, List.getD_cons_succ, List.getD_nil]
  norm_num

/-- Per-mill AFT of `rowOx`: non-null at mill 0. -/
theorem rowOx_aft_zero : aftPerMillAt [] [rowOx] 0 = some (calcAFT (oxAccumAt [] [rowOx] 0)) := by
  rw [aftPerMillAt, if_neg (by rw [rowOx_oxTotal]; norm_num)]

/-- Per-mill AFT of `rowOx`: null at every later mill. -/
theorem rowOx_aft_succ (m : ℕ) : aftPerMillAt [] [rowOx] (m + 1) = none := by
  rw [aftPerMillAt, if_pos (rowOx_oxTotal_succ m)]

/-- The per-mill AFT list of `rowOx`. -/
theorem rowOx_aftPerMill (flows : List ℚ) :
    (computeBlendMetrics [] [rowOx] flows none).aftPerMill
      = [some (calcAFT (oxAccumAt [] [rowOx] 0)), none, none, none, none, none] := by
  show (List.range 6).map (aftPerMillAt [] [rowOx]) = _
  rw [show List.range 6 = [0, 1, 2, 3, 4, 5] from rfl]
  simp only [List.map_cons, List.map_nil, rowOx_aft_zero, rowOx_aft_succ 0, rowOx_aft_succ 1,
    rowOx_aft_succ 2, rowOx_aft_succ 3, rowOx_aft_succ 4]

/-- Witness for C3 on `rowOx` with flow 2: mill 0 is the only contributing
mill and the average AFT is its value. -/
theorem computeBlendMetrics_aft_amended_witness :
    ((computeBlendMetrics [] [rowOx] [2] none).aftPerMill.getD 0 none = none ↔
      (oxKeys.map (oxAccumAt [] [rowOx] 0)).sum = 0) ∧
    (computeBlendMetrics [] [rowOx] [2] none).avgAFT
      = some ((∑ k ∈ Finset.range 6,
          (match (computeBlendMetrics [] [rowOx] [2] none).aftPerMill.getD k none with
           | some v => ([2] : List ℚ).getD k 0 * v
           | none => 0))
        / (∑ k ∈ Finset.range 6,
          (match (computeBlendMetrics [] [rowOx] [2] none).aftPerMill.getD k none with
           | some _ => ([2] : List ℚ).getD k 0
           | none => 0))) := by
  have h := computeBlendMetrics_aft_amended [] [rowOx] [2] none 0 (by decide)
  refine ⟨h.1, h.2.2.2.2 ?_⟩
  rw [Finset.sum_range_succ, Finset.sum_range_succ, Finset.sum_range_succ,
    Finset.sum_range_succ, Finset.sum_range_succ, Finset.sum_range_succ,
    Finset.sum_range_zero]
  simp only [rowOx_aftPerMill]
  norm_num

/-- Counterexample to C3 as stated: with the single flow -1, mill 0 has a
non-null AFT, the total flow of the contributing mills is -1, which is not 0,
and the claim therefore predicts a non-null average AFT; the code returns
null because -1 is not positive. -/
theorem computeBlendMetrics_aft_counterexample :
    (computeBlendMetrics [] [rowOx] [-1] none).aftPerMill.getD 0 none
      = some (calcAFT (oxAccumAt [] [rowOx] 0)) ∧
    (∑ k ∈ Finset.range 6,
      (match (computeBlendMetrics [] [rowOx] [-1] none).aftPerMill.getD k none with
       | some _ => ([-1] : List ℚ).getD k 0
       | none => 0)) = -1 ∧
    ((-1 : ℚ) ≠ 0) ∧
    (computeBlendMetrics [] [rowOx] [-1] none).avgAFT = none := by
  have hsum : (∑ k ∈ Finset.range 6,
      (match ((List.range 6).map (aftPerMillAt [] [rowOx])).getD k none with
       | some _ => flowAt [-1] k
       | none => 0)) = -1 := by
    have hlist : ((List.range 6).map (aftPerMillAt [] [rowOx]))
        = [some (calcAFT (oxAccumAt [] [rowOx] 0)), none, none, none, none, none] :=
      rowOx_aftPerMill [-1]
    rw [Finset.sum_range_succ, Finset.sum_range_succ, Finset.sum_range_succ,
      Finset.sum_range_succ, Finset.sum_range_succ, Finset.sum_range_succ,
      Finset.sum_range_zero, hlist]
    norm_num [flowAt]
  refine ⟨?_, ?_, by norm_num, ?_⟩
  · rw [aftPerMill_getD [] [rowOx] [-1] none 0 (by decide)]
    exact rowOx_aft_zero
  · rw [Finset.sum_range_succ, Finset.sum_range_succ, Finset.sum_range_succ,
      Finset.sum_range_succ, Finset.sum_range_succ, Finset.sum_range_succ,
      Finset.sum_range_zero]
    simp only [rowOx_aftPerMill]
    norm_num
  · show (if 0 < ((List.range 6).foldl
        (srvStep [-1] ((List.range 6).map (blendedGCVAt [] [rowOx]))
          ((List.range 6).map (aftPerMillAt [] [rowOx]))) ⟨0, 0, 0, 0⟩).contributedAFTFlow
      then some (((List.range 6).foldl
        (srvStep [-1] ((List.range 6).map (blendedGCVAt [] [rowOx]))
          ((List.range 6).map (aftPerMillAt [] [rowOx]))) ⟨0, 0, 0, 0⟩).weightedAFT
        / ((List.range 6).foldl
        (srvStep [-1] ((List.range 6).map (blendedGCVAt [] [rowOx]))
          ((List.range 6).map (aftPerMillAt [] [rowOx]))) ⟨0, 0, 0, 0⟩).contributedAFTFlow)
      else none) = none
    rw [computeBlendMetrics_acc [] [rowOx] [-1]]
    rw [if_neg (by rw [hsum]; norm_num)]

/-! ### Claim C5: client-side derived metrics -/

/-- Closed form of a fold that accumulates `gcv * flow` and `flow` over the
bunkers on which both resolve. -/
theorem optPairFold (F G : ℕ → Option ℚ) :
    ∀ (l : List ℕ) (acc : ℚ × ℚ),
      l.foldl (fun a b =>
        match F b, G b with
        | some f, some g => (a.1 + g * f, a.2 + f)
        | _, _ => a) acc
      = (acc.1 + (l.map (fun b =>
          match F b, G b with
          | some f, some g => g * f
          | _, _ => 0)).sum,
         acc.2 + (l.map (fun b =>
          match F b, G b with
          | some f, some g => f
          | _, _ => 0)).sum)
  | [], acc => by simp
  | b :: l, acc => by
    rw [List.foldl_cons, optPairFold F G l _]
    cases hF : F b with
    | none =>
      simp only [hF, List.map_cons, List.sum_cons]
      refine Prod.ext ?_ ?_ <;> simp <;> ring
    | some f =>
      cases hG : G b with
      | none =>
        simp only [hF, hG, List.map_cons, List.sum_cons]
        refine Prod.ext ?_ ?_ <;> simp <;> ring
      | some g =>
        simp only [hF, hG, List.map_cons, List.sum_cons]
        refine Prod.ext ?_ ?_ <;> simp <;> ring

/-- The accumulation loop of `computeDerivedMetrics` in closed form. -/
theorem derivedAccum_spec (binder : Option Binder) (blend : BlendC)
    (coalDB : List CoalDocC) :
    derivedAccum binder blend coalDB
      = (∑ b ∈ Finset.range (bunkerCount blend),
          (match getBunkerFlow blend b, getBottomGcvForBunker binder blend coalDB b with
           | some f, some g => g * f
           | _, _ => 0),
         ∑ b ∈ Finset.range (bunkerCount blend),
          (match getBunkerFlow blend b, getBottomGcvForBunker binder blend coalDB b with
           | some f, some g => f
           | _, _ => 0)) := by
  rw [derivedAccum, optPairFold (getBunkerFlow blend) (getBottomGcvForBunker binder blend coalDB)]
  rw [sum_map_range_eq_sum, sum_map_range_eq_sum]
  simp

/-- C5: the client `computeDerivedMetrics` computes the average gcv as the
sum, over the bunkers with both a numeric flow and a resolvable
currently-draining-layer gcv, of `gcv * flow`, divided by the stored
`totalFlow` when that is numeric and otherwise by the sum of the contributing
flows; the average is null when the chosen denominator is not positive; and
the heat rate is `avgGCV * totalFlow / generation` when the generation is a
positive number and the average gcv resolved, and null in every other case. -/
theorem computeDerivedMetrics_spec (binder : Option Binder) (blend : BlendC)
    (coalDB : List CoalDocC) :
    (∀ t, blend.totalFlow = some t → 0 < t →
      (computeDerivedMetrics binder (some blend) coalDB).avgGCV
        = some ((∑ b ∈ Finset.range (bunkerCount blend),
            (match getBunkerFlow blend b, getBottomGcvForBunker binder blend coalDB b with
             | some f, some g => g * f
             | _, _ => 0)) / t)) ∧
    (∀ t, blend.totalFlow = some t → ¬ 0 < t →
      (computeDerivedMetrics binder (some blend) coalDB).avgGCV = none) ∧
    (blend.totalFlow = none →
      0 < (∑ b ∈ Finset.range (bunkerCount blend),
        (match getBunkerFlow blend b, getBottomGcvForBunker binder blend coalDB b with
         | some f, some g => f
         | _, _ => 0)) →
      (computeDerivedMetrics binder (some blend) coalDB).avgGCV
        = some ((∑ b ∈ Finset.range (bunkerCount blend),
            (match getBunkerFlow blend b, getBottomGcvForBunker binder blend coalDB b with
             | some f, some g => g * f
             | _, _ => 0))
          / (∑ b ∈ Finset.range (bunkerCount blend),
            (match getBunkerFlow blend b, getBottomGcvForBunker binder blend coalDB b with
             | some f, some g => f
             | _, _ => 0)))) ∧
    (blend.totalFlow = none →
      ¬ 0 < (∑ b ∈ Finset.range (bunkerCount blend),
        (match getBunkerFlow blend b, getBottomGcvForBunker binder blend coalDB b with
         | some f, some g => f
         | _, _ => 0)) →
      (computeDerivedMetrics binder (some blend) coalDB).avgGCV = none) ∧
    (∀ a t g, (computeDerivedMetrics binder (some blend) coalDB).avgGCV = some a →
      (computeDerivedMetrics binder (some blend) coalDB).totalFlow = some t →
      blend.generation = some g → 0 < g →
      (computeDerivedMetrics binder (some blend) coalDB).heatRate = some (a * t / g)) ∧
    ((computeDerivedMetrics binder (some blend) coalDB).avgGCV = none →
      (computeDerivedMetrics binder (some blend) coalDB).heatRate = none) ∧
    (∀ g, blend.generation = some g → ¬ 0 < g →
      (computeDerivedMetrics binder (some blend) coalDB).heatRate = none) ∧
    (blend.generation = none →
      (computeDerivedMetrics binder (some blend) coalDB).heatRate = none) := by
  have hacc := derivedAccum_spec binder blend coalDB
  have htf : (computeDerivedMetrics binder (some blend) coalDB).totalFlow
      = (match blend.totalFlow with
         | some t => some t
         | none => if 0 < (derivedAccum binder blend coalDB).2
             then some (derivedAccum binder blend coalDB).2 else none) := rfl
  have hag : (computeDerivedMetrics binder (some blend) coalDB).avgGCV
      = (match (computeDerivedMetrics binder (some blend) coalDB).totalFlow with
         | some t => if 0 < t then some ((derivedAccum binder blend coalDB).1 / t) else none
         | none => none) := rfl
  have hhr : (computeDerivedMetrics binder (some blend) coalDB).heatRate
      = (match (computeDerivedMetrics binder (some blend) coalDB).avgGCV,
            (computeDerivedMetrics binder (some blend) coalDB).totalFlow,
            blend.generation with
         | some a, some t, some g => if 0 < g then some (a * t / g) else none
         | _, _, _ => none) := rfl
  refine ⟨?_, ?_, ?_, ?_, ?_, ?_, ?_, ?_⟩
  · intro t ht hpos
    rw [hag, htf, ht]
    simp only [if_pos hpos, hacc]
  · intro t ht hpos
    rw [hag, htf, ht]
    simp only [if_neg hpos]
  · intro ht hpos
    rw [hag, htf, ht]
    rw [hacc]
    simp only [if_pos hpos]
  · intro ht hpos
    rw [hag, htf, ht]
    rw [hacc]
    simp only [if_neg hpos]
  · intro a t g ha ht hg hpos
    rw [hhr, ha, ht, hg]
    simp only [if_pos hpos]
  · intro ha
    rw [hhr, ha]
  · intro g hg hpos
    rw [hhr, hg]
    cases (computeDerivedMetrics binder (some blend) coalDB).avgGCV with
    | none => rfl
    | some a =>
      cases (computeDerivedMetrics binder (some blend) coalDB).totalFlow with
      | none => rfl
      | some t => simp only [if_neg hpos]
  · intro hg
    rw [hhr, hg]
    cases (computeDerivedMetrics binder (some blend) coalDB).avgGCV with
    | none => rfl
    | some a =>
      cases (computeDerivedMetrics binder (some blend) coalDB).totalFlow with
      | none => rfl
      | some t => rfl

/-- Layer with a resolvable gcv, for the C5 witness. -/
def layerG : LayerC :=
  { timer := .vnull, percent := some 50, percentages := none, gcv := some 3000, coal := "" }

/-- Blend wrapping `layerG`: one bunker, flow 2, stored total flow 2,
generation 1. -/
def blend5 : BlendC :=
  { bunkers := some [{ layers := [some layerG], flow := none }]
    flows := some [some 2]
    rows := none
    totalFlow := some 2
    generation := some 1
    bunkerCapacity := none }

/-- Witness for C5 on `blend5`: the stored total flow 2 is the denominator
and the heat rate multiplies back by it over generation 1. -/
theorem computeDerivedMetrics_spec_witness :
    (computeDerivedMetrics none (some blend5) []).avgGCV
      = some ((∑ b ∈ Finset.range (bunkerCount blend5),
          (match getBunkerFlow blend5 b, getBottomGcvForBunker none blend5 [] b with
           | some f, some g => g * f
           | _, _ => 0)) / 2) ∧
    (computeDerivedMetrics none (some blend5) []).heatRate
      = some (((∑ b ∈ Finset.range (bunkerCount blend5),
          (match getBunkerFlow blend5 b, getBottomGcvForBunker none blend5 [] b with
           | some f, some g => g * f
           | _, _ => 0)) / 2) * 2 / 1) := by
  have h := computeDerivedMetrics_spec none blend5 []
  have h1 := h.1 2 rfl (by norm_num)
  exact ⟨h1, h.2.2.2.2.1 _ 2 1 h1 rfl rfl (by norm_num)⟩

end ViewBunker
